import Mathlib

/-!
Annotation overlay of the screen recorder (`static/js/annotate.js`).

A shallow embedding of the `AnnotationTools` class: the annotation log, the
tool state, the gesture state and the 2D drawing context of the overlay
canvas, with every method of the class as a function on that state.

Modelling conventions.

* Coordinates are integers (`Int`); a pointer event carries `clientX` and
  `clientY`, and the bounding rectangle read by `getBoundingClientRect` is an
  argument of the method that reads it.
* Colours are the 24-bit value of the `#rrggbb` string; `globalAlpha` is kept
  in tenths (`10` is `1`, `3` is `0.3`).
* The raster of the canvas is the sequence of painting calls made on it since
  it was last wiped as a whole, each with the drawing state it was made
  under.  Two canvases with the same size and the same sequence hold the same
  pixels.
* A method that would throw a `TypeError` (a property read on `null` or
  `undefined`) returns `none`.

The timer of the recorder itself (`static/js/recorder.js`) is embedded after
the overlay, in the namespace `Recorder`.
-/

namespace Annotate

/-- The six values of `data-tool` on the toolbar buttons. -/
inductive Tool where
  | pen
  | highlighter
  | arrow
  | rectangle
  | circle
  | eraser
  deriving DecidableEq, Repr

/-- Colour of a `#rrggbb` string as a number. -/
abbrev Color := Nat

/-- An element `{ x, y }` of `points`. -/
structure Point where
  x : Int
  y : Int
  deriving DecidableEq, Repr

/-- The object built in `startDrawing` and pushed in `stopDrawing`; `endX` and
`endY` are `undefined` (`none`) until `stopDrawing` assigns them. -/
structure Annotation where
  tool : Tool
  color : Color
  size : Nat
  points : List Point
  endX : Option Int
  endY : Option Int
  deriving DecidableEq, Repr

/-- Values of `globalCompositeOperation` used by the class. -/
inductive CompositeOp where
  | sourceOver
  | destinationOut
  deriving DecidableEq, Repr

/-- Values of `lineCap`. -/
inductive LineCap where
  | butt
  | round
  deriving DecidableEq, Repr

/-- Values of `lineJoin`. -/
inductive LineJoin where
  | miter
  | round
  deriving DecidableEq, Repr

/-- One call that extends the current path.  `ellipse2` holds the arguments of
`ellipse(centerX, centerY, radiusX, radiusY, 0, 0, 2π)` multiplied by two, so
that the halves computed by the source stay integral.  `lineToHead x2 y2 len dy
dx k` is `lineTo(x2 - len * cos(a + k * π/6), y2 - len * sin(a + k * π/6))`
with `a = atan2(dy, dx)`. -/
inductive PathCmd where
  | moveTo (x y : Int)
  | lineTo (x y : Int)
  | ellipse2 (cx2 cy2 rx2 ry2 : Int)
  | lineToHead (x2 y2 : Int) (len : Nat) (dy dx : Int) (k : Int)
  deriving DecidableEq, Repr

/-- The part of the drawing state that a painting call reads. -/
structure Paint where
  strokeStyle : Color
  lineWidth : Nat
  lineCap : LineCap
  lineJoin : LineJoin
  globalAlpha : Nat
  globalCompositeOperation : CompositeOp
  deriving DecidableEq, Repr

/-- A painting call recorded on the raster. -/
inductive DrawOp where
  | stroke (paint : Paint) (path : List PathCmd)
  | strokeRect (paint : Paint) (x y w h : Int)
  | clearRect (x y w h : Int)
  deriving DecidableEq, Repr

/-- The canvas element: its size, its raster since the last whole wipe, and
whether its class list holds `active`. -/
structure Canvas where
  width : Nat
  height : Nat
  raster : List DrawOp
  active : Bool
  deriving DecidableEq, Repr

/-- The `CanvasRenderingContext2D` state the class touches, and the current
path. -/
structure Ctx where
  strokeStyle : Color
  lineWidth : Nat
  lineCap : LineCap
  lineJoin : LineJoin
  globalAlpha : Nat
  globalCompositeOperation : CompositeOp
  path : List PathCmd
  deriving DecidableEq, Repr

/-- The state of a context that has just been created or whose canvas has just
been given a width or height: black, width 1, butt caps, miter joins, opaque,
source-over, empty path. -/
def Ctx.initial : Ctx :=
  { strokeStyle := 0, lineWidth := 1, lineCap := LineCap.butt,
    lineJoin := LineJoin.miter, globalAlpha := 10,
    globalCompositeOperation := CompositeOp.sourceOver, path := [] }

/-- The drawing state a painting call made now would use. -/
def Ctx.paint (c : Ctx) : Paint :=
  { strokeStyle := c.strokeStyle, lineWidth := c.lineWidth, lineCap := c.lineCap,
    lineJoin := c.lineJoin, globalAlpha := c.globalAlpha,
    globalCompositeOperation := c.globalCompositeOperation }

/-- A mouse event or a touch: the two fields the class reads. -/
structure PointerEvt where
  clientX : Int
  clientY : Int
  deriving DecidableEq, Repr

/-- The fields of a `getBoundingClientRect()` result the class reads. -/
structure DOMRect where
  left : Int
  top : Int
  width : Nat
  height : Nat
  deriving DecidableEq, Repr

/-- The fields of an `AnnotationTools` instance.  `startX` and `startY` are
assigned by `startDrawing` only and read by `draw` only while `isDrawing`
holds; `currentAnnotation` is `undefined` or `null` when `none`.
`toolbarActive` is whether the class list of the toolbar holds `active`. -/
structure AnnotationTools where
  canvas : Canvas
  ctx : Ctx
  isDrawing : Bool
  currentTool : Tool
  currentColor : Color
  brushSize : Nat
  lastX : Int
  lastY : Int
  startX : Int
  startY : Int
  annotations : List Annotation
  isActive : Bool
  currentAnnotation : Option Annotation
  toolbarActive : Bool
  deriving DecidableEq, Repr

/-- The test `[arrow, rectangle, circle].includes(tool)`. -/
def isShape : Tool → Bool
  | Tool.arrow => true
  | Tool.rectangle => true
  | Tool.circle => true
  | _ => false

/-! ## Context calls -/

/-- The call `ctx.clearRect(x, y, w, h)`: a rectangle that covers the whole
canvas leaves a transparent raster, any other is recorded. -/
def clearRect (s : AnnotationTools) (x y w h : Int) : AnnotationTools :=
  if x ≤ 0 ∧ y ≤ 0 ∧ (s.canvas.width : Int) ≤ x + w ∧ (s.canvas.height : Int) ≤ y + h then
    { s with canvas := { s.canvas with raster := [] } }
  else
    { s with canvas := { s.canvas with raster := s.canvas.raster ++ [DrawOp.clearRect x y w h] } }

/-- The call `ctx.beginPath()`. -/
def beginPath (s : AnnotationTools) : AnnotationTools :=
  { s with ctx := { s.ctx with path := [] } }

/-- The call `ctx.moveTo(x, y)`. -/
def moveTo (s : AnnotationTools) (x y : Int) : AnnotationTools :=
  { s with ctx := { s.ctx with path := s.ctx.path ++ [PathCmd.moveTo x y] } }

/-- The call `ctx.lineTo(x, y)`. -/
def lineTo (s : AnnotationTools) (x y : Int) : AnnotationTools :=
  { s with ctx := { s.ctx with path := s.ctx.path ++ [PathCmd.lineTo x y] } }

/-- The call `ctx.lineTo` on an arrow-head point, see `PathCmd.lineToHead`. -/
def lineToHead (s : AnnotationTools) (x2 y2 : Int) (len : Nat) (dy dx : Int) (k : Int) :
    AnnotationTools :=
  { s with ctx := { s.ctx with path := s.ctx.path ++ [PathCmd.lineToHead x2 y2 len dy dx k] } }

/-- The call `ctx.ellipse(cx, cy, rx, ry, 0, 0, 2 * Math.PI)`, arguments
doubled. -/
def ellipse2 (s : AnnotationTools) (cx2 cy2 rx2 ry2 : Int) : AnnotationTools :=
  { s with ctx := { s.ctx with path := s.ctx.path ++ [PathCmd.ellipse2 cx2 cy2 rx2 ry2] } }

/-- The call `ctx.stroke()`: paints the current path with the current drawing
state; the path stays. -/
def stroke (s : AnnotationTools) : AnnotationTools :=
  { s with canvas :=
      { s.canvas with raster := s.canvas.raster ++ [DrawOp.stroke s.ctx.paint s.ctx.path] } }

/-- The call `ctx.strokeRect(x, y, w, h)`; the current path is not touched. -/
def strokeRect (s : AnnotationTools) (x y w h : Int) : AnnotationTools :=
  { s with canvas :=
      { s.canvas with raster := s.canvas.raster ++ [DrawOp.strokeRect s.ctx.paint x y w h] } }

/-! ## Methods of the class -/

/-- The state left by `new AnnotationTools()` in a container of size
`rect.width` by `rect.height`: the assignments of the constructor, then
`createCanvas`, whose `resizeCanvas` sizes the canvas and replays an empty
log. -/
def init (rect : DOMRect) : AnnotationTools :=
  { canvas := { width := rect.width, height := rect.height, raster := [], active := false },
    ctx := Ctx.initial,
    isDrawing := false,
    currentTool := Tool.pen,
    currentColor := 0xff0000,
    brushSize := 4,
    lastX := 0,
    lastY := 0,
    startX := 0,
    startY := 0,
    annotations := [],
    isActive := false,
    currentAnnotation := none,
    toolbarActive := false }

/-- The method `startDrawing(e)`; `rect` is `canvas.getBoundingClientRect()`. -/
def startDrawing (s : AnnotationTools) (e : PointerEvt) (rect : DOMRect) : AnnotationTools :=
  if !s.isActive then s
  else
    let lastX := e.clientX - rect.left
    let lastY := e.clientY - rect.top
    { s with
      isDrawing := true
      lastX := lastX
      lastY := lastY
      startX := lastX
      startY := lastY
      currentAnnotation := some
        { tool := s.currentTool, color := s.currentColor, size := s.brushSize,
          points := [{ x := lastX, y := lastY }], endX := none, endY := none } }

/-- The method `drawShape(x1, y1, x2, y2)`: the live preview, styled from the
tool state. -/
def drawShape (s : AnnotationTools) (x1 y1 x2 y2 : Int) : AnnotationTools :=
  let s := { s with ctx := { s.ctx with
    strokeStyle := s.currentColor, lineWidth := s.brushSize, globalAlpha := 10 } }
  match s.currentTool with
  | Tool.rectangle => strokeRect s x1 y1 (x2 - x1) (y2 - y1)
  | Tool.circle =>
    let radiusX2 : Int := (x2 - x1).natAbs
    let radiusY2 : Int := (y2 - y1).natAbs
    let centerX2 := 2 * min x1 x2 + radiusX2
    let centerY2 := 2 * min y1 y2 + radiusY2
    stroke (ellipse2 (beginPath s) centerX2 centerY2 radiusX2 radiusY2)
  | Tool.arrow =>
    let headLen := 15
    let s := beginPath s
    let s := moveTo s x1 y1
    let s := lineTo s x2 y2
    let s := lineToHead s x2 y2 headLen (y2 - y1) (x2 - x1) (-1)
    let s := moveTo s x2 y2
    let s := lineToHead s x2 y2 headLen (y2 - y1) (x2 - x1) 1
    stroke s
  | _ => s

/-- The method `drawShapeFromAnnotation(annotation, x1, y1, x2, y2)`.  `x2` and
`y2` are `annotation.endX` and `annotation.endY`; when one is `undefined` every
argument computed from it is `NaN`, and a context call with a `NaN` argument
does nothing. -/
def drawShapeFromAnnotation (s : AnnotationTools) ( annotation : Annotation)
    (x1 y1 : Int) (x2 y2 : Option Int) : AnnotationTools :=
  let s := { s with ctx := { s.ctx with
    strokeStyle := annotation.color, lineWidth := annotation.size } }
  match annotation.tool with
  | Tool.rectangle =>
    match x2, y2 with
    | some x2, some y2 => strokeRect s x1 y1 (x2 - x1) (y2 - y1)
    | _, _ => s
  | Tool.circle =>
    match x2, y2 with
    | some x2, some y2 =>
      let radiusX2 : Int := (x2 - x1).natAbs
      let radiusY2 : Int := (y2 - y1).natAbs
      let centerX2 := 2 * min x1 x2 + radiusX2
      let centerY2 := 2 * min y1 y2 + radiusY2
      stroke (ellipse2 (beginPath s) centerX2 centerY2 radiusX2 radiusY2)
    | _, _ => stroke (beginPath s)
  | Tool.arrow =>
    match x2, y2 with
    | some x2, some y2 =>
      let headLen := 15
      let s := beginPath s
      let s := moveTo s x1 y1
      let s := lineTo s x2 y2
      let s := lineToHead s x2 y2 headLen (y2 - y1) (x2 - x1) (-1)
      let s := moveTo s x2 y2
      let s := lineToHead s x2 y2 headLen (y2 - y1) (x2 - x1) 1
      stroke s
    | _, _ => stroke (moveTo (beginPath s) x1 y1)
  | _ => s

/-- The callback of `annotation.points.forEach` in `redraw`, from index `i`
on: `moveTo` at index 0, `lineTo` after it. -/
def tracePoints : List Point → Nat → AnnotationTools → AnnotationTools
  | [], _, s => s
  | point :: rest, i, s =>
    tracePoints rest (i + 1) (if i = 0 then moveTo s point.x point.y else lineTo s point.x point.y)

/-- The callback of `this.annotations.forEach` in `redraw`.  Reading `start.x`
throws when `points` is empty. -/
def redrawAnnotation (s : AnnotationTools) ( annotation : Annotation) : Option AnnotationTools :=
  let s := { s with ctx := { s.ctx with
    strokeStyle := annotation.color, lineWidth := annotation.size,
    lineCap := LineCap.round, lineJoin := LineJoin.round } }
  let s :=
    if annotation.tool = Tool.highlighter then
      { s with ctx := { s.ctx with globalAlpha := 3, lineWidth := annotation.size * 3 } }
    else
      { s with ctx := { s.ctx with globalAlpha := 10 } }
  let drawn : Option AnnotationTools :=
    if isShape annotation.tool then
      match annotation.points.head? with
      | none => none
      | some start =>
        some ( drawShapeFromAnnotation s annotation start.x start.y annotation.endX annotation.endY)
    else if annotation.tool ≠ Tool.eraser then
      some (stroke (tracePoints annotation.points 0 (beginPath s)))
    else
      some s
  drawn.map fun s => { s with ctx := { s.ctx with globalAlpha := 10 } }

/-- The method `redraw()`: wipe the canvas, then replay the log in order. -/
def redraw (s : AnnotationTools) : Option AnnotationTools :=
  s.annotations.foldlM redrawAnnotation (clearRect s 0 0 s.canvas.width s.canvas.height)

/-- The method `draw(e)`; `rect` is `canvas.getBoundingClientRect()`.  The
final `this.currentAnnotation.points.push` throws when there is no current
annotation. -/
def draw (s : AnnotationTools) (e : PointerEvt) (rect : DOMRect) : Option AnnotationTools :=
  if !s.isDrawing || !s.isActive then some s
  else
    let x := e.clientX - rect.left
    let y := e.clientY - rect.top
    let s := { s with ctx := { s.ctx with
      lineWidth := s.brushSize, lineCap := LineCap.round, lineJoin := LineJoin.round } }
    let drawn : Option AnnotationTools :=
      match s.currentTool with
      | Tool.pen =>
        let s := { s with ctx := { s.ctx with
          strokeStyle := s.currentColor, globalAlpha := 10,
          globalCompositeOperation := CompositeOp.sourceOver } }
        some (stroke (lineTo (moveTo (beginPath s) s.lastX s.lastY) x y))
      | Tool.highlighter =>
        let s := { s with ctx := { s.ctx with
          strokeStyle := s.currentColor, globalAlpha := 3, lineWidth := s.brushSize * 3,
          globalCompositeOperation := CompositeOp.sourceOver } }
        let s := stroke (lineTo (moveTo (beginPath s) s.lastX s.lastY) x y)
        some { s with ctx := { s.ctx with globalAlpha := 10 } }
      | Tool.eraser =>
        let s := { s with ctx := { s.ctx with
          globalCompositeOperation := CompositeOp.destinationOut, lineWidth := s.brushSize * 2 } }
        let s := stroke (lineTo (moveTo (beginPath s) s.lastX s.lastY) x y)
        some { s with ctx := { s.ctx with globalCompositeOperation := CompositeOp.sourceOver } }
      | _ => (redraw s).map fun s => drawShape s s.startX s.startY x y
    drawn.bind fun s =>
      match s.currentAnnotation with
      | none => none
      | some a =>
        some { s with
          currentAnnotation := some { a with points := a.points ++ [{ x := x, y := y }] }
          lastX := x
          lastY := y }

/-- The method `stopDrawing()`.  Reading `lastPoint.x` throws when `points` is
empty. -/
def stopDrawing (s : AnnotationTools) : Option AnnotationTools :=
  let pushed : Option AnnotationTools :=
    match s.isDrawing, s.currentAnnotation with
    | true, some a =>
      if isShape s.currentTool then
        match a.points.getLast? with
        | none => none
        | some lastPoint =>
          some { s with annotations :=
            s.annotations ++ [{ a with endX := some lastPoint.x, endY := some lastPoint.y }] }
      else
        some { s with annotations := s.annotations ++ [a] }
    | _, _ => some s
  pushed.map fun s => { s with isDrawing := false, currentAnnotation := none }

/-- The method `undo()`: `annotations.pop()`, then `redraw()`. -/
def undo (s : AnnotationTools) : Option AnnotationTools :=
  redraw { s with annotations := s.annotations.dropLast }

/-- The method `clear()`. -/
def clear (s : AnnotationTools) : AnnotationTools :=
  let s := { s with annotations := [] }
  clearRect s 0 0 s.canvas.width s.canvas.height

/-- Assignment to `canvas.width` and `canvas.height`: the bitmap becomes
transparent and the context returns to its initial state. -/
def setCanvasSize (s : AnnotationTools) (width height : Nat) : AnnotationTools :=
  { s with
    canvas := { s.canvas with width := width, height := height, raster := [] }
    ctx := Ctx.initial }

/-- The method `resizeCanvas()`; `rect` is the bounding rectangle of the video
container. -/
def resizeCanvas (s : AnnotationTools) (rect : DOMRect) : Option AnnotationTools :=
  redraw (setCanvasSize s rect.width rect.height)

/-- The method `show()`; `rect` is the bounding rectangle read by the
`resizeCanvas` call. -/
def showTools (s : AnnotationTools) (rect : DOMRect) : Option AnnotationTools :=
  resizeCanvas
    { s with isActive := true, canvas := { s.canvas with active := true }, toolbarActive := true }
    rect

/-- The method `hide()`. -/
def hide (s : AnnotationTools) : AnnotationTools :=
  { s with isActive := false, canvas := { s.canvas with active := false }, toolbarActive := false }

/-- The method `toggle()`. -/
def toggle (s : AnnotationTools) (rect : DOMRect) : Option AnnotationTools :=
  if s.isActive then some (hide s) else showTools s rect

/-! ## Events -/

/-- What can happen to an instance: the listeners bound in `bindEvents` and
`createCanvas`, and the calls made by the recorder. -/
inductive Op where
  /-- Listener of `mousedown`, `touchstart`. -/
  | pointerdown (e : PointerEvt) (rect : DOMRect)
  /-- Listener of `mousemove`, `touchmove`. -/
  | pointermove (e : PointerEvt) (rect : DOMRect)
  /-- Listener of `mouseup`, `mouseout`, `touchend`. -/
  | pointerup
  /-- Click on a tool button. -/
  | selectTool (tool : Tool)
  /-- Click on a colour button. -/
  | selectColor (color : Color)
  /-- Input on the size slider. -/
  | setBrushSize (size : Nat)
  /-- Click on the undo button. -/
  | undo
  /-- Click on the clear button, or `clear()` from the recorder. -/
  | clear
  /-- Call of `show()`. -/
  | showTools (rect : DOMRect)
  /-- Click on the close button, or `hide()` from the recorder. -/
  | hide
  /-- Call of `toggle()` from the recorder. -/
  | toggle (rect : DOMRect)
  /-- Listener of the window `resize` event. -/
  | resize (rect : DOMRect)
  deriving DecidableEq, Repr

/-- One event handled in state `s`. -/
def step (s : AnnotationTools) : Op → Option AnnotationTools
  | Op.pointerdown e rect => some (startDrawing s e rect)
  | Op.pointermove e rect => draw s e rect
  | Op.pointerup => stopDrawing s
  | Op.selectTool tool => some { s with currentTool := tool }
  | Op.selectColor color => some { s with currentColor := color }
  | Op.setBrushSize size => some { s with brushSize := size }
  | Op.undo => undo s
  | Op.clear => some (clear s)
  | Op.showTools rect => showTools s rect
  | Op.hide => some (hide s)
  | Op.toggle rect => toggle s rect
  | Op.resize rect => resizeCanvas s rect

/-- A sequence of events handled from state `s`, in order. -/
def run (s : AnnotationTools) (ops : List Op) : Option AnnotationTools :=
  ops.foldlM step s

/-- States the instance can be in: those reached from a fresh instance by a
sequence of events. -/
def Reachable (s : AnnotationTools) : Prop :=
  ∃ rect ops, run (init rect) ops = some s

/-! ## What a replay paints -/

/-- The path commands issued by `tracePoints` from index `i` on. -/
def tracePath : List Point → Nat → List PathCmd
  | [], _ => []
  | point :: rest, i =>
    (if i = 0 then PathCmd.moveTo point.x point.y else PathCmd.lineTo point.x point.y)
      :: tracePath rest (i + 1)

/-- The drawing state `redraw` sets up for an annotation, under the composite
operation `gco` the context is in. -/
def replayPaint (gco : CompositeOp) (a : Annotation) : Paint :=
  { strokeStyle := a.color
    lineWidth := if a.tool = Tool.highlighter then a.size * 3 else a.size
    lineCap := LineCap.round
    lineJoin := LineJoin.round
    globalAlpha := if a.tool = Tool.highlighter then 3 else 10
    globalCompositeOperation := gco }

/-- The painting calls of a shape from `(x1, y1)` to `(x2, y2)` under `paint`:
the body shared by `drawShape` and `drawShapeFromAnnotation`. -/
def shapeOps (paint : Paint) (tool : Tool) (x1 y1 x2 y2 : Int) : List DrawOp :=
  match tool with
  | Tool.rectangle => [DrawOp.strokeRect paint x1 y1 (x2 - x1) (y2 - y1)]
  | Tool.circle =>
    [DrawOp.stroke paint
      [PathCmd.ellipse2 (2 * min x1 x2 + ((x2 - x1).natAbs : Int))
        (2 * min y1 y2 + ((y2 - y1).natAbs : Int)) (x2 - x1).natAbs (y2 - y1).natAbs]]
  | Tool.arrow =>
    [DrawOp.stroke paint
      [PathCmd.moveTo x1 y1, PathCmd.lineTo x2 y2,
        PathCmd.lineToHead x2 y2 15 (y2 - y1) (x2 - x1) (-1),
        PathCmd.moveTo x2 y2,
        PathCmd.lineToHead x2 y2 15 (y2 - y1) (x2 - x1) 1]]
  | _ => []

/-- The painting calls of a shape annotation whose end point is missing. -/
def shapeOpsNoEnd (paint : Paint) (tool : Tool) (x1 y1 : Int) : List DrawOp :=
  match tool with
  | Tool.circle => [DrawOp.stroke paint []]
  | Tool.arrow => [DrawOp.stroke paint [PathCmd.moveTo x1 y1]]
  | _ => []

/-- The painting calls `redraw` makes for one annotation. -/
def replayOps (gco : CompositeOp) (a : Annotation) : List DrawOp :=
  if isShape a.tool then
    match a.points.head?, a.endX, a.endY with
    | some start, some x2, some y2 => shapeOps (replayPaint gco a) a.tool start.x start.y x2 y2
    | some start, _, _ => shapeOpsNoEnd (replayPaint gco a) a.tool start.x start.y
    | none, _, _ => []
  else if a.tool ≠ Tool.eraser then
    [DrawOp.stroke (replayPaint gco a) (tracePath a.points 0)]
  else []

/-- The painting calls `redraw` makes for a log, in order. -/
def replay (gco : CompositeOp) : List Annotation → List DrawOp
  | [] => []
  | a :: rest => replayOps gco a ++ replay gco rest

/-- Every annotation of the log has a point. -/
def logOk (log : List Annotation) : Bool :=
  log.all fun a => !a.points.isEmpty

/-- The conditions every state of a running instance meets: every annotation
of the log has a point, an open gesture has a current annotation with a
point, and the context composes with source-over outside `draw`. -/
def wellFormed (s : AnnotationTools) : Bool :=
  logOk s.annotations
    && (!s.isDrawing ||
        match s.currentAnnotation with
        | some a => !a.points.isEmpty
        | none => false)
    && decide (s.ctx.globalCompositeOperation = CompositeOp.sourceOver)

/-- The coordinate `startDrawing` and `draw` compute for an event. -/
def localPoint (e : PointerEvt) (rect : DOMRect) : Point :=
  { x := e.clientX - rect.left, y := e.clientY - rect.top }

/-- The events of one gesture: a press, the moves, a release. -/
def gesture (down : PointerEvt × DOMRect) (moves : List (PointerEvt × DOMRect)) : List Op :=
  Op.pointerdown down.1 down.2 :: ((moves.map fun m => Op.pointermove m.1 m.2) ++ [Op.pointerup])

/-- What a replay or a preview keeps of the drawing state `c₀` it starts from:
the composite operation, and round caps, round joins and full opacity when
they were set. -/
def CtxKept (c₀ c : Ctx) : Prop :=
  c.globalCompositeOperation = c₀.globalCompositeOperation
    ∧ (c₀.lineCap = LineCap.round → c.lineCap = LineCap.round)
    ∧ (c₀.lineJoin = LineJoin.round → c.lineJoin = LineJoin.round)
    ∧ (c₀.globalAlpha = 10 → c.globalAlpha = 10)

/-- The drawing state of the stroke `draw` paints for a freehand tool, and of
the preview it paints for a shape tool. -/
def drawPaint (s : AnnotationTools) : Paint :=
  match s.currentTool with
  | Tool.pen =>
    { strokeStyle := s.currentColor, lineWidth := s.brushSize, lineCap := LineCap.round,
      lineJoin := LineJoin.round, globalAlpha := 10,
      globalCompositeOperation := CompositeOp.sourceOver }
  | Tool.highlighter =>
    { strokeStyle := s.currentColor, lineWidth := s.brushSize * 3, lineCap := LineCap.round,
      lineJoin := LineJoin.round, globalAlpha := 3,
      globalCompositeOperation := CompositeOp.sourceOver }
  | Tool.eraser =>
    { strokeStyle := s.ctx.strokeStyle, lineWidth := s.brushSize * 2, lineCap := LineCap.round,
      lineJoin := LineJoin.round, globalAlpha := s.ctx.globalAlpha,
      globalCompositeOperation := CompositeOp.destinationOut }
  | _ =>
    { strokeStyle := s.currentColor, lineWidth := s.brushSize, lineCap := LineCap.round,
      lineJoin := LineJoin.round, globalAlpha := 10,
      globalCompositeOperation := s.ctx.globalCompositeOperation }

/-- The raster `draw` leaves for an event at `(x, y)`: one more segment for a
freehand tool, the replay of the log and the preview for a shape tool. -/
def drawRaster (s : AnnotationTools) (x y : Int) : List DrawOp :=
  if isShape s.currentTool then
    replay s.ctx.globalCompositeOperation s.annotations
      ++ shapeOps (drawPaint s) s.currentTool s.startX s.startY x y
  else
    s.canvas.raster
      ++ [DrawOp.stroke (drawPaint s) [PathCmd.moveTo s.lastX s.lastY, PathCmd.lineTo x y]]

/-- The annotation a gesture through `points` commits in state `s`: tool,
colour and size as `startDrawing` read them, the end point as `stopDrawing`
sets it. -/
def committed (s : AnnotationTools) (points : List Point) : Annotation :=
  { tool := s.currentTool
    color := s.currentColor
    size := s.brushSize
    points := points
    endX := if isShape s.currentTool then points.getLast?.map Point.x else none
    endY := if isShape s.currentTool then points.getLast?.map Point.y else none }

/-! ## Concrete inputs -/

/-- A video container of 640 by 360 at the page origin. -/
def container : DOMRect :=
  { left := 0, top := 0, width := 640, height := 360 }

/-- A pointer event at `(x, y)`. -/
def ptr (x y : Int) : PointerEvt :=
  { clientX := x, clientY := y }

/-- The instance after `show()` in `container`: active, pen, red, size 4,
empty log. -/
def ready : AnnotationTools :=
  { init container with
    isActive := true
    canvas := { width := 640, height := 360, raster := [], active := true }
    toolbarActive := true }

/-- A red pen stroke of size 4 through the given points. -/
def penStroke (points : List Point) : Annotation :=
  { tool := Tool.pen, color := 0xff0000, size := 4, points := points, endX := none, endY := none }

/-- The instance `ready` with three pen strokes in the log. -/
def threeStrokes : AnnotationTools :=
  { ready with
    annotations :=
      [penStroke [{ x := 10, y := 10 }, { x := 50, y := 10 }],
       penStroke [{ x := 10, y := 20 }, { x := 50, y := 20 }],
       penStroke [{ x := 10, y := 30 }, { x := 50, y := 30 }]] }

/-- The instance `ready` with one pen stroke in the log and an eraser gesture
open across it. -/
def midErase : AnnotationTools :=
  { ready with
    currentTool := Tool.eraser
    isDrawing := true
    lastX := 30
    lastY := 20
    startX := 30
    startY := 0
    annotations := [penStroke [{ x := 10, y := 10 }, { x := 50, y := 10 }]]
    currentAnnotation := some
      { tool := Tool.eraser, color := 0xff0000, size := 4,
        points := [{ x := 30, y := 0 }, { x := 30, y := 20 }], endX := none, endY := none } }

/-- What one event does to the log: `undo` drops the last entry, `clear` drops
all, a release of an open gesture appends the current annotation, and every
other event leaves the log as it is. -/
def LogEffect (s s' : AnnotationTools) : Op → Prop
  | Op.undo => s'.annotations = s.annotations.dropLast
  | Op.clear => s'.annotations = []
  | Op.pointerup =>
    (∀ cur, s.isDrawing = true → s.currentAnnotation = some cur →
      ∃ a : Annotation, a.tool = cur.tool ∧ a.color = cur.color ∧ a.size = cur.size ∧
        a.points = cur.points ∧ s'.annotations = s.annotations ++ [a])
    ∧ (s.isDrawing = false ∨ s.currentAnnotation = none → s'.annotations = s.annotations)
  | _ => s'.annotations = s.annotations

/-- The annotation `a` was opened by a press of the history `ops` run from
`s₀`: some press of `ops` was handled while the engine was active, and its
coordinate is the first point of `a`. -/
def OpenedBy (s₀ : AnnotationTools) (ops : List Op) (a : Annotation) : Prop :=
  ∃ (pre post : List Op) (e : PointerEvt) (rect : DOMRect) (t : AnnotationTools),
    ops = pre ++ Op.pointerdown e rect :: post ∧ run s₀ pre = some t ∧ t.isActive = true ∧
      a.points.head? = some (localPoint e rect)

/-- Every annotation of the log and the current annotation were opened by a
press of the history. -/
def TraceInv (s₀ : AnnotationTools) (ops : List Op) (s : AnnotationTools) : Prop :=
  (∀ a ∈ s.annotations, OpenedBy s₀ ops a) ∧
    ∀ a, s.currentAnnotation = some a → OpenedBy s₀ ops a

/-- The instance after `show()` in `container` and one pen stroke from (10,10)
to (50,10). -/
def oneStroke : AnnotationTools :=
  { ready with
    canvas :=
      { width := 640, height := 360, active := true,
        raster :=
          [DrawOp.stroke
            { strokeStyle := 0xff0000, lineWidth := 4, lineCap := LineCap.round,
              lineJoin := LineJoin.round, globalAlpha := 10,
              globalCompositeOperation := CompositeOp.sourceOver }
            [PathCmd.moveTo 10 10, PathCmd.lineTo 50 10]] }
    ctx :=
      { strokeStyle := 0xff0000, lineWidth := 4, lineCap := LineCap.round,
        lineJoin := LineJoin.round, globalAlpha := 10,
        globalCompositeOperation := CompositeOp.sourceOver,
        path := [PathCmd.moveTo 10 10, PathCmd.lineTo 50 10] }
    lastX := 50
    lastY := 10
    startX := 10
    startY := 10
    annotations := [penStroke [{ x := 10, y := 10 }, { x := 50, y := 10 }]] }

/-- The events that lead to `oneStroke`. -/
def oneStrokeOps : List Op :=
  Op.showTools container :: gesture (ptr 10 10, container) [(ptr 50 10, container)]

/-- A row of the table of rendering rules: composition, effective width, and
opacity in tenths (`none` where the table says it does not apply). -/
structure RenderingRule where
  composition : CompositeOp
  width : Nat
  opacity : Option Nat
  deriving DecidableEq, Repr

/-- The table of rendering rules per tool as the specification gives it: pen
paint-over, `strokeWidth`, 1.0; highlighter paint-over, `strokeWidth × 3`, 0.3;
eraser erase, `strokeWidth × 2`, no opacity; arrow, rectangle and circle
paint-over, `strokeWidth`, 1.0. -/
def renderingRule (tool : Tool) (strokeWidth : Nat) : RenderingRule :=
  match tool with
  | Tool.pen =>
    { composition := CompositeOp.sourceOver, width := strokeWidth, opacity := some 10 }
  | Tool.highlighter =>
    { composition := CompositeOp.sourceOver, width := strokeWidth * 3, opacity := some 3 }
  | Tool.eraser =>
    { composition := CompositeOp.destinationOut, width := strokeWidth * 2, opacity := none }
  | Tool.arrow =>
    { composition := CompositeOp.sourceOver, width := strokeWidth, opacity := some 10 }
  | Tool.rectangle =>
    { composition := CompositeOp.sourceOver, width := strokeWidth, opacity := some 10 }
  | Tool.circle =>
    { composition := CompositeOp.sourceOver, width := strokeWidth, opacity := some 10 }

/-- The drawing state `p` follows the rule `r`. -/
def Paint.obeys (p : Paint) (r : RenderingRule) : Bool :=
  decide (p.globalCompositeOperation = r.composition) && decide (p.lineWidth = r.width) &&
    match r.opacity with
    | none => true
    | some o => decide (p.globalAlpha = o)

/-- The drawing state a recorded call was made under. -/
def DrawOp.paint? : DrawOp → Option Paint
  | DrawOp.stroke paint _ => some paint
  | DrawOp.strokeRect paint _ _ _ _ => some paint
  | DrawOp.clearRect _ _ _ _ => none

/-- The call `op` paints under the rule `r`. -/
def DrawOp.obeys (op : DrawOp) (r : RenderingRule) : Bool :=
  match op.paint? with
  | some p => p.obeys r
  | none => false

/-- A red eraser annotation of size 4 down the line from (30,0) to (30,20). -/
def eraserPath : Annotation :=
  { tool := Tool.eraser, color := 0xff0000, size := 4,
    points := [{ x := 30, y := 0 }, { x := 30, y := 20 }], endX := none, endY := none }

/-- The instance `oneStroke` with the eraser selected and pressed at (30,0). -/
def eraserDown : AnnotationTools :=
  { oneStroke with
    currentTool := Tool.eraser
    isDrawing := true
    lastX := 30
    lastY := 0
    startX := 30
    startY := 0
    currentAnnotation := some { eraserPath with points := [{ x := 30, y := 0 }] } }

/-- A pen stroke, then an eraser stroke across it, then the pen again. -/
def penThenEraser : List Op :=
  oneStrokeOps ++
    Op.selectTool Tool.eraser :: gesture (ptr 30 0, container) [(ptr 30 20, container)] ++
    [Op.selectTool Tool.pen]

/-- A second pen stroke, from (10,40) to (50,40). -/
def secondStroke : List Op :=
  gesture (ptr 10 40, container) [(ptr 50 40, container)]

/-- A highlighter stroke through (10,10), (30,10) and (50,10), then the pen
again. -/
def highlightThenPen : List Op :=
  Op.showTools container :: Op.selectTool Tool.highlighter ::
    gesture (ptr 10 10, container) [(ptr 30 10, container), (ptr 50 10, container)] ++
    [Op.selectTool Tool.pen]

/-- A pen stroke from (10,10) to (50,10) left open, then `hide()`: the engine is
inactive and the gesture still open. -/
def hiddenMidStroke : List Op :=
  [Op.showTools container, Op.pointerdown (ptr 10 10) container,
   Op.pointermove (ptr 50 10) container, Op.hide]

/-- A video container of 1280 by 720 at the page origin. -/
def wideContainer : DOMRect :=
  { left := 0, top := 0, width := 1280, height := 720 }

/-- The instance `oneStroke` with a blank surface and other selections: the
same log on the same canvas size. -/
def oneStrokeBlank : AnnotationTools :=
  { oneStroke with
    canvas := { width := 640, height := 360, raster := [], active := true }
    ctx := Ctx.initial
    currentTool := Tool.circle
    currentColor := 0x00ff00
    brushSize := 9 }

/-- The point `p` of the plane that the call recorded as `PathCmd.lineToHead x2 y2
len dy dx k` draws its line to, in exact real arithmetic: `(x2 - len * cos (a +
k * π/6), y2 - len * sin (a + k * π/6))` with `a = atan2(dy, dx)`, the argument
of `dx + dy * i`. -/
def HeadPoint (x2 y2 : Int) (len : Nat) (dy dx k : Int) (p : ℝ × ℝ) : Prop :=
  p.1 = x2 - len * Real.cos (Complex.arg ⟨dx, dy⟩ + k * (Real.pi / 6)) ∧
    p.2 = y2 - len * Real.sin (Complex.arg ⟨dx, dy⟩ + k * (Real.pi / 6))

/-- The instance `ready` with the arrow selected. -/
def arrowReady : AnnotationTools :=
  { ready with currentTool := Tool.arrow }

/-- A committed red arrow of size 4 from (20,20) to (80,20). -/
def arrowAcross : Annotation :=
  { tool := Tool.arrow, color := 0xff0000, size := 4,
    points := [{ x := 20, y := 20 }, { x := 80, y := 20 }], endX := some 80, endY := some 20 }

/-- The instance `ready` with the circle selected. -/
def circleReady : AnnotationTools :=
  { ready with currentTool := Tool.circle }

/-- A committed red circle of size 4 dragged from (80,60) back to (20,20). -/
def circleBack : Annotation :=
  { tool := Tool.circle, color := 0xff0000, size := 4,
    points := [{ x := 80, y := 60 }, { x := 20, y := 20 }], endX := some 20, endY := some 20 }

/-- The line segments of a path, in the order they are traced; `cur` is the
current point.  A `moveTo` sets the current point, a `lineTo` adds the segment
from the current point (or sets it when there is none). -/
def pathSegments : Option Point → List PathCmd → List (Point × Point)
  | _, [] => []
  | _, PathCmd.moveTo x y :: rest => pathSegments (some { x := x, y := y }) rest
  | some p, PathCmd.lineTo x y :: rest =>
    (p, { x := x, y := y }) :: pathSegments (some { x := x, y := y }) rest
  | none, PathCmd.lineTo x y :: rest => pathSegments (some { x := x, y := y }) rest
  | cur, _ :: rest => pathSegments cur rest

/-- The line segments one recorded call strokes. -/
def strokeSegments : DrawOp → List (Point × Point)
  | DrawOp.stroke _ path => pathSegments none path
  | _ => []

/-- The consecutive pairs `(p0, p1), (p1, p2), ..` of a sequence of points. -/
def consecutive : List Point → List (Point × Point)
  | p :: q :: rest => (p, q) :: consecutive (q :: rest)
  | _ => []

/-- An eraser stroke through (30,0), (30,10) and (30,20) on a fresh instance. -/
def eraserStrokeOps : List Op :=
  Op.showTools container :: Op.selectTool Tool.eraser ::
    gesture (ptr 30 0, container) [(ptr 30 10, container), (ptr 30 20, container)]

end Annotate

/-! ## The recorder's timer (`static/js/recorder.js`)

The part of `class ScreenRecorder` that drives the recording timer: the fields
the timer code reads and writes, the methods that start, pause, resume and stop
a recording, and `formatTime`. `Date.now()` is an argument of each method that
reads the clock (each reads it at most once); times are integer milliseconds,
which JavaScript numbers represent exactly below `2 ^ 53`. -/

namespace Recorder

/-- Attribute `state` of a `MediaRecorder` object. -/
inductive RecordingState where
  | inactive
  | recording
  | paused
  deriving DecidableEq, Repr

/-- `MediaRecorder.pause()`: throws `InvalidStateError` on an inactive recorder
(`none`), does nothing on a paused one. -/
def RecordingState.pause : RecordingState → Option RecordingState
  | .inactive => none
  | _ => some .paused

/-- `MediaRecorder.resume()`: throws `InvalidStateError` on an inactive recorder
(`none`), does nothing on a recording one. -/
def RecordingState.resume : RecordingState → Option RecordingState
  | .inactive => none
  | _ => some .recording

/-- The fields of `ScreenRecorder` used by the timer. `mediaRecorder` is `none`
for `null`; `timerInterval` tells whether an interval handle is stored;
`timerText` is `this.timer.textContent`. -/
structure ScreenRecorder where
  mediaRecorder : Option RecordingState
  isRecording : Bool
  isPaused : Bool
  timerInterval : Bool
  startTime : Int
  pausedTime : Int
  timerText : String
  deriving DecidableEq, Repr

/-- The state set up by the constructor, around the text the page shows in the
timer element. -/
def ScreenRecorder.new (timerText : String) : ScreenRecorder :=
  { mediaRecorder := none, isRecording := false, isPaused := false, timerInterval := false,
    startTime := 0, pausedTime := 0, timerText := timerText }

/-- `String.prototype.padStart(targetLength, padString)`: the string itself when
it is long enough or the filler is empty, else the filler repeated and cut to
the missing length, put in front. -/
def padStart (s : String) (targetLength : Nat) (padString : String) : String :=
  if targetLength ≤ s.length ∨ padString.length = 0 then s
  else
    let fillLen := targetLength - s.length
    String.mk ((List.replicate fillLen padString.data).flatten.take fillLen) ++ s

/-- `formatTime(ms)`: `Math.floor` of a quotient is `Int.fdiv`, `%` is the
truncated remainder `Int.tmod`, `toString()` of an integer is its decimal
numeral. -/
def formatTime (ms : Int) : String :=
  let totalSeconds := Int.fdiv ms 1000
  let hours := Int.fdiv totalSeconds 3600
  let minutes := Int.fdiv (Int.tmod totalSeconds 3600) 60
  let seconds := Int.tmod totalSeconds 60
  padStart (toString hours) 2 "0" ++ ":" ++ padStart (toString minutes) 2 "0" ++ ":" ++
    padStart (toString seconds) 2 "0"

/-- `startTimer()`: `!this.startTime` holds for a start time of `0`. -/
def startTimer (now : Int) (r : ScreenRecorder) : ScreenRecorder :=
  let r := if r.startTime = 0 ∨ r.isPaused = true then
    { r with startTime := now - r.pausedTime } else r
  { r with timerInterval := true }

/-- `stopTimer()`. -/
def stopTimer (r : ScreenRecorder) : ScreenRecorder :=
  if r.timerInterval then { r with timerInterval := false } else r

/-- The value `elapsed` computed by the interval callback at time `now`. -/
def elapsed (now : Int) (r : ScreenRecorder) : Int :=
  now - r.startTime

/-- The callback installed by `startTimer()`, run at time `now`; it runs only
while an interval is installed. -/
def tick (now : Int) (r : ScreenRecorder) : ScreenRecorder :=
  if r.timerInterval then { r with timerText := formatTime (elapsed now r) } else r

/-- `startRecording()` on the path where the stream is granted: a new
`MediaRecorder` is created and started, then the timer. -/
def startRecording (now : Int) (r : ScreenRecorder) : ScreenRecorder :=
  startTimer now
    { r with mediaRecorder := some .recording, isRecording := true, isPaused := false }

/-- `togglePause()`; `none` when `pause()` or `resume()` throws. -/
def togglePause (now : Int) (r : ScreenRecorder) : Option ScreenRecorder :=
  match r.mediaRecorder with
  | none => some r
  | some m =>
    if r.isPaused then do
      let m ← m.resume
      let r := { r with mediaRecorder := some m, isPaused := false }
      pure (startTimer now r)
    else do
      let m ← m.pause
      let r := { r with mediaRecorder := some m, isPaused := true }
      let r := { r with pausedTime := now - r.startTime }
      pure (stopTimer r)

/-- `stopRecording()`. -/
def stopRecording (r : ScreenRecorder) : ScreenRecorder :=
  match r.mediaRecorder with
  | some _ =>
    if r.isRecording then
      stopTimer { r with mediaRecorder := some .inactive, isRecording := false, isPaused := false }
    else r
  | none => r

/-- `newRecording()`, as far as the timer goes. -/
def newRecording (r : ScreenRecorder) : ScreenRecorder :=
  { r with startTime := 0, pausedTime := 0, timerText := "00:00:00" }

/-- What the user and the clock do to a recorder. -/
inductive Event where
  /-- Click on the start button, the stream being granted. -/
  | startRecording
  /-- Click on the pause button. -/
  | togglePause
  /-- Click on the stop button, or the shared stream ends. -/
  | stopRecording
  /-- Click on the button for a new recording. -/
  | newRecording
  /-- The interval callback fires. -/
  | tick
  deriving DecidableEq, Repr

/-- One event at clock reading `now`. -/
def step (r : ScreenRecorder) : Int × Event → Option ScreenRecorder
  | (now, .startRecording) => some (startRecording now r)
  | (now, .togglePause) => togglePause now r
  | (_, .stopRecording) => some (stopRecording r)
  | (_, .newRecording) => some (newRecording r)
  | (now, .tick) => some (tick now r)

/-- A timed sequence of events. -/
def run (r : ScreenRecorder) (es : List (Int × Event)) : Option ScreenRecorder :=
  es.foldlM step r

/-- The numeral of `n` in decimal, left-padded with zeros to at least two digits. -/
def twoDigits (n : Nat) : String :=
  String.mk (List.replicate (2 - (Nat.repr n).length) '0') ++ Nat.repr n

/-- The recording started at `t0`, paused at `t1` and resumed at `t2`. -/
def pausedAndResumed (t0 t1 t2 : Int) : List (Int × Event) :=
  [(t0, .startRecording), (t1, .togglePause), (t2, .togglePause)]

end Recorder

namespace Annotate

/-! ## Lemmas on painting -/

theorem CtxKept.refl (c : Ctx) : CtxKept c c :=
  ⟨rfl, id, id, id⟩

theorem CtxKept.trans {c₀ c₁ c₂ : Ctx} (h₁ : CtxKept c₀ c₁) (h₂ : CtxKept c₁ c₂) :
    CtxKept c₀ c₂ :=
  ⟨h₂.1.trans h₁.1, fun h => h₂.2.1 (h₁.2.1 h), fun h => h₂.2.2.1 (h₁.2.2.1 h),
    fun h => h₂.2.2.2 (h₁.2.2.2 h)⟩

theorem tracePoints_eq (ps : List Point) (i : Nat) (s : AnnotationTools) :
    tracePoints ps i s = { s with ctx := { s.ctx with path := s.ctx.path ++ tracePath ps i } } := by
  induction ps generalizing i s with
  | nil => simp [tracePoints, tracePath]
  | cons p ps ih =>
    rw [tracePoints, ih, tracePath]
    by_cases h : i = 0 <;> simp [h, moveTo, lineTo]

theorem redrawAnnotation_eq (s : AnnotationTools) (a : Annotation) (h : a.points ≠ []) :
    ∃ c : Ctx, CtxKept s.ctx c ∧
      redrawAnnotation s a = some { s with
        canvas := { s.canvas with
          raster := s.canvas.raster ++ replayOps s.ctx.globalCompositeOperation a }
        ctx := c } := by
  obtain ⟨tool, color, size, points, endX, endY⟩ := a
  cases points with
  | nil => exact absurd rfl h
  | cons p ps =>
    cases tool <;> cases endX <;> cases endY <;>
      simp [ redrawAnnotation, replayOps, isShape, drawShapeFromAnnotation, shapeOps,
        shapeOpsNoEnd, replayPaint, stroke, strokeRect, beginPath, moveTo, lineTo, lineToHead,
        ellipse2, tracePoints_eq, Ctx.paint, CtxKept]

theorem logOk_iff (log : List Annotation) :
    logOk log = true ↔ ∀ a ∈ log, a.points ≠ [] := by
  simp [logOk, List.all_eq_true]

theorem logOk_append (l₁ l₂ : List Annotation) :
    logOk (l₁ ++ l₂) = (logOk l₁ && logOk l₂) := by
  simp [logOk, List.all_append]

theorem logOk_dropLast (log : List Annotation) (h : logOk log = true) :
    logOk log.dropLast = true := by
  rw [logOk_iff] at h ⊢
  exact fun a ha => h a (List.dropLast_subset log ha)

theorem replay_append (gco : CompositeOp) (l₁ l₂ : List Annotation) :
    replay gco (l₁ ++ l₂) = replay gco l₁ ++ replay gco l₂ := by
  induction l₁ with
  | nil => simp [replay]
  | cons a l ih => simp [replay, ih]

theorem foldlM_redrawAnnotation (log : List Annotation) (hok : logOk log = true)
    (s : AnnotationTools) :
    ∃ c : Ctx, CtxKept s.ctx c ∧
      log.foldlM redrawAnnotation s = some { s with
        canvas := { s.canvas with
          raster := s.canvas.raster ++ replay s.ctx.globalCompositeOperation log }
        ctx := c } := by
  induction log generalizing s with
  | nil => exact ⟨s.ctx, CtxKept.refl _, by simp [replay]⟩
  | cons a log ih =>
    have hok' : a.points ≠ [] ∧ logOk log = true := by
      simpa [logOk] using hok
    obtain ⟨c₁, hc₁, h₁⟩ := redrawAnnotation_eq s a hok'.1
    obtain ⟨c₂, hc₂, h₂⟩ := ih hok'.2
      { s with
        canvas := { s.canvas with
          raster := s.canvas.raster ++ replayOps s.ctx.globalCompositeOperation a }
        ctx := c₁ }
    refine ⟨c₂, hc₁.trans hc₂, ?_⟩
    rw [List.foldlM_cons, h₁]
    simp only [Option.bind_eq_bind, Option.some_bind]
    rw [h₂]
    simp [replay, hc₁.1]

theorem redraw_eq (s : AnnotationTools) (hok : logOk s.annotations = true) :
    ∃ c : Ctx, CtxKept s.ctx c ∧
      redraw s = some { s with
        canvas := { s.canvas with raster := replay s.ctx.globalCompositeOperation s.annotations }
        ctx := c } := by
  have hclear : clearRect s 0 0 s.canvas.width s.canvas.height
      = { s with canvas := { s.canvas with raster := [] } } := by
    simp [clearRect]
  obtain ⟨c, hc, h⟩ := foldlM_redrawAnnotation s.annotations hok
    { s with canvas := { s.canvas with raster := [] } }
  exact ⟨c, hc, by rw [redraw, hclear, h]; simp⟩

theorem drawShape_eq (s : AnnotationTools) (x1 y1 x2 y2 : Int) :
    ∃ c : Ctx, CtxKept s.ctx c ∧
      drawShape s x1 y1 x2 y2 = { s with
        canvas := { s.canvas with
          raster := s.canvas.raster ++
            shapeOps { s.ctx.paint with
              strokeStyle := s.currentColor, lineWidth := s.brushSize, globalAlpha := 10 }
              s.currentTool x1 y1 x2 y2 }
        ctx := c } := by
  obtain ⟨canvas, ctx, isDrawing, currentTool⟩ := s
  cases currentTool <;>
    simp [drawShape, shapeOps, stroke, strokeRect, beginPath, moveTo, lineTo, lineToHead,
      ellipse2, Ctx.paint, CtxKept]

theorem draw_shape_unfold (s : AnnotationTools) (e : PointerEvt) (rect : DOMRect)
    (hd : s.isDrawing = true) (ha : s.isActive = true) (hs : isShape s.currentTool = true) :
    draw s e rect = (Option.map (fun s => drawShape s s.startX s.startY
        (e.clientX - rect.left) (e.clientY - rect.top))
        (redraw { s with ctx := { s.ctx with
          lineWidth := s.brushSize, lineCap := LineCap.round,
          lineJoin := LineJoin.round } })).bind fun s =>
        match s.currentAnnotation with
        | none => none
        | some a =>
          some { s with
            currentAnnotation := some { a with
              points := a.points ++ [{ x := e.clientX - rect.left, y := e.clientY - rect.top }] }
            lastX := e.clientX - rect.left
            lastY := e.clientY - rect.top } := by
  cases ht : s.currentTool <;> simp [ht, isShape] at hs <;> simp [draw, hd, ha, ht]

theorem draw_eq (s : AnnotationTools) (e : PointerEvt) (rect : DOMRect) (a : Annotation)
    (hd : s.isDrawing = true) (ha : s.isActive = true) (hc : s.currentAnnotation = some a)
    (hok : isShape s.currentTool = true → logOk s.annotations = true) :
    ∃ c : Ctx, (s.ctx.globalCompositeOperation = CompositeOp.sourceOver →
        c.globalCompositeOperation = CompositeOp.sourceOver) ∧
      draw s e rect = some { s with
        canvas := { s.canvas with
          raster := drawRaster s (e.clientX - rect.left) (e.clientY - rect.top) }
        ctx := c
        currentAnnotation := some { a with points := a.points ++ [localPoint e rect] }
        lastX := e.clientX - rect.left
        lastY := e.clientY - rect.top } := by
  by_cases hs : isShape s.currentTool = true
  · obtain ⟨c₁, hc₁, h₁⟩ := redraw_eq
      { s with ctx := { s.ctx with
          lineWidth := s.brushSize, lineCap := LineCap.round, lineJoin := LineJoin.round } }
      (hok hs)
    obtain ⟨c₂, hc₂, h₂⟩ := drawShape_eq
      { s with
        canvas := { s.canvas with raster := replay s.ctx.globalCompositeOperation s.annotations }
        ctx := c₁ } s.startX s.startY (e.clientX - rect.left) (e.clientY - rect.top)
    simp only [CtxKept, true_implies] at hc₁ hc₂
    refine ⟨c₂, fun h => by rw [hc₂.1, hc₁.1, h], ?_⟩
    rw [draw_shape_unfold s e rect hd ha hs]
    simp only [] at h₁
    rw [h₁]
    simp only [Option.map_some', Option.some_bind]
    rw [h₂]
    cases ht : s.currentTool <;> simp [ht, isShape] at hs <;>
      simp [hc, drawRaster, isShape, ht, drawPaint, Ctx.paint, hc₁, localPoint]
  · cases ht : s.currentTool <;> simp [ht, isShape] at hs <;>
      simp [draw, hd, ha, ht, hc, drawRaster, isShape, drawPaint, Ctx.paint, localPoint, stroke,
        beginPath, moveTo, lineTo]

/-! ## Lemmas on gestures -/

theorem run_nil (s : AnnotationTools) : run s [] = some s := rfl

theorem run_cons (s : AnnotationTools) (op : Op) (ops : List Op) :
    run s (op :: ops) = (step s op).bind fun s' => run s' ops := by
  simp [run, List.foldlM_cons]

theorem run_append (s : AnnotationTools) (ops₁ ops₂ : List Op) :
    run s (ops₁ ++ ops₂) = (run s ops₁).bind fun s' => run s' ops₂ := by
  simp [run, List.foldlM_append]

theorem startDrawing_eq (s : AnnotationTools) (e : PointerEvt) (rect : DOMRect)
    (ha : s.isActive = true) :
    startDrawing s e rect = { s with
      isDrawing := true
      lastX := e.clientX - rect.left
      lastY := e.clientY - rect.top
      startX := e.clientX - rect.left
      startY := e.clientY - rect.top
      currentAnnotation := some
        { tool := s.currentTool, color := s.currentColor, size := s.brushSize,
          points := [localPoint e rect], endX := none, endY := none } } := by
  simp [startDrawing, ha, localPoint]

theorem stopDrawing_eq (s : AnnotationTools) (a : Annotation)
    (hd : s.isDrawing = true) (hc : s.currentAnnotation = some a) (hp : a.points ≠ []) :
    stopDrawing s = some { s with
      annotations := s.annotations ++
        [if isShape s.currentTool then
          { a with endX := a.points.getLast?.map Point.x, endY := a.points.getLast?.map Point.y }
         else a]
      isDrawing := false
      currentAnnotation := none } := by
  obtain ⟨l, p, hl⟩ : ∃ l p, a.points = l ++ [p] :=
    ⟨a.points.dropLast, a.points.getLast hp, (List.dropLast_append_getLast hp).symm⟩
  by_cases hs : isShape s.currentTool = true <;>
    simp [stopDrawing, hd, hc, hs, hl]

theorem run_moves (moves : List (PointerEvt × DOMRect)) (s : AnnotationTools) (a : Annotation)
    (hd : s.isDrawing = true) (ha : s.isActive = true) (hc : s.currentAnnotation = some a)
    (hok : isShape s.currentTool = true → logOk s.annotations = true) :
    ∃ (raster : List DrawOp) (c : Ctx) (lx ly : Int),
      (s.ctx.globalCompositeOperation = CompositeOp.sourceOver →
        c.globalCompositeOperation = CompositeOp.sourceOver) ∧
      run s (moves.map fun m => Op.pointermove m.1 m.2) = some { s with
        canvas := { s.canvas with raster := raster }
        ctx := c
        currentAnnotation := some { a with
          points := a.points ++ moves.map fun m => localPoint m.1 m.2 }
        lastX := lx
        lastY := ly } := by
  induction moves generalizing s a with
  | nil =>
    exact ⟨s.canvas.raster, s.ctx, s.lastX, s.lastY, id, by simp [run_nil, ← hc]⟩
  | cons m moves ih =>
    obtain ⟨c₁, hc₁, h₁⟩ := draw_eq s m.1 m.2 a hd ha hc hok
    obtain ⟨raster, c, lx, ly, hg, h⟩ := ih
      { s with
        canvas := { s.canvas with
          raster := drawRaster s (m.1.clientX - m.2.left) (m.1.clientY - m.2.top) }
        ctx := c₁
        currentAnnotation := some { a with points := a.points ++ [localPoint m.1 m.2] }
        lastX := m.1.clientX - m.2.left
        lastY := m.1.clientY - m.2.top }
      { a with points := a.points ++ [localPoint m.1 m.2] } hd ha rfl hok
    refine ⟨raster, c, lx, ly, fun h0 => hg (hc₁ h0), ?_⟩
    rw [List.map_cons, run_cons, step, h₁, Option.some_bind, h]
    simp

theorem run_gesture (s : AnnotationTools) (down : PointerEvt × DOMRect)
    (moves : List (PointerEvt × DOMRect)) (ha : s.isActive = true)
    (hok : isShape s.currentTool = true → logOk s.annotations = true) :
    ∃ (raster : List DrawOp) (c : Ctx) (lx ly : Int),
      (s.ctx.globalCompositeOperation = CompositeOp.sourceOver →
        c.globalCompositeOperation = CompositeOp.sourceOver) ∧
      run s (gesture down moves) = some { s with
        canvas := { s.canvas with raster := raster }
        ctx := c
        isDrawing := false
        lastX := lx
        lastY := ly
        startX := down.1.clientX - down.2.left
        startY := down.1.clientY - down.2.top
        annotations := s.annotations ++
          [committed s (localPoint down.1 down.2 :: moves.map fun m => localPoint m.1 m.2)]
        currentAnnotation := none } := by
  obtain ⟨raster, c, lx, ly, hg, h⟩ := run_moves moves
    (startDrawing s down.1 down.2)
    { tool := s.currentTool, color := s.currentColor, size := s.brushSize,
      points := [localPoint down.1 down.2], endX := none, endY := none }
    (by simp [startDrawing_eq, ha]) (by simp [startDrawing_eq, ha])
    (by simp [startDrawing_eq, ha]) (by simpa [startDrawing_eq, ha] using hok)
  refine ⟨raster, c, lx, ly, by simpa [startDrawing_eq, ha] using hg, ?_⟩
  rw [gesture, run_cons, step, Option.some_bind, run_append, h, Option.some_bind, run_cons,
    step, stopDrawing_eq _ _ (by simp [startDrawing_eq, ha]) rfl (by simp), Option.some_bind,
    run_nil]
  by_cases hs : isShape s.currentTool = true <;>
    simp [startDrawing_eq, ha, committed, hs, List.getLast?_cons]

/-! ## What each method leaves alone -/

theorem redrawAnnotation_cases (s : AnnotationTools) (a : Annotation) :
    redrawAnnotation s a = none ∨
      ∃ c : Ctx, CtxKept s.ctx c ∧
        redrawAnnotation s a = some { s with
          canvas := { s.canvas with
            raster := s.canvas.raster ++ replayOps s.ctx.globalCompositeOperation a }
          ctx := c } := by
  by_cases hp : a.points = []
  · by_cases hs : isShape a.tool = true
    · exact Or.inl (by simp [ redrawAnnotation, hs, hp])
    · refine Or.inr ?_
      obtain ⟨tool, color, size, points, endX, endY⟩ := a
      subst hp
      cases tool <;> simp [isShape] at hs <;>
        simp [ redrawAnnotation, replayOps, isShape, replayPaint, stroke, beginPath,
          tracePoints_eq, Ctx.paint, CtxKept]
  · exact Or.inr (redrawAnnotation_eq s a hp)

theorem foldlM_redrawAnnotation_frame (log : List Annotation) (s s' : AnnotationTools)
    (h : log.foldlM redrawAnnotation s = some s') :
    ∃ (raster : List DrawOp) (c : Ctx), CtxKept s.ctx c ∧
      s' = { s with canvas := { s.canvas with raster := raster }, ctx := c } := by
  induction log generalizing s with
  | nil =>
    simp only [List.foldlM_nil, Option.pure_def, Option.some.injEq] at h
    exact ⟨s.canvas.raster, s.ctx, CtxKept.refl _, by rw [← h]⟩
  | cons a log ih =>
    rw [List.foldlM_cons] at h
    rcases redrawAnnotation_cases s a with h₁ | ⟨c₁, hc₁, h₁⟩
    · rw [h₁] at h; simp at h
    · rw [h₁] at h
      simp only [Option.bind_eq_bind, Option.some_bind] at h
      obtain ⟨raster, c, hc, hs'⟩ := ih _ h
      exact ⟨raster, c, hc₁.trans hc, by rw [hs']⟩

theorem redraw_frame (s s' : AnnotationTools) (h : redraw s = some s') :
    ∃ (raster : List DrawOp) (c : Ctx), CtxKept s.ctx c ∧
      s' = { s with canvas := { s.canvas with raster := raster }, ctx := c } := by
  have hclear : clearRect s 0 0 s.canvas.width s.canvas.height
      = { s with canvas := { s.canvas with raster := [] } } := by
    simp [clearRect]
  rw [redraw, hclear] at h
  obtain ⟨raster, c, hc, hs'⟩ := foldlM_redrawAnnotation_frame _ _ _ h
  exact ⟨raster, c, hc, by rw [hs']⟩

theorem draw_frame (s s' : AnnotationTools) (e : PointerEvt) (rect : DOMRect)
    (h : draw s e rect = some s') :
    s' = s ∨
      (s.isDrawing = true ∧ s.isActive = true ∧
        ∃ (a : Annotation) (raster : List DrawOp) (c : Ctx),
          s.currentAnnotation = some a ∧
          (s.ctx.globalCompositeOperation = CompositeOp.sourceOver →
            c.globalCompositeOperation = CompositeOp.sourceOver) ∧
          s' = { s with
            canvas := { s.canvas with raster := raster }
            ctx := c
            currentAnnotation := some { a with points := a.points ++ [localPoint e rect] }
            lastX := e.clientX - rect.left
            lastY := e.clientY - rect.top }) := by
  by_cases hd : s.isDrawing = true
  swap
  · left; simp [draw, hd] at h; exact h.symm
  by_cases ha : s.isActive = true
  swap
  · left; simp [draw, ha] at h; exact h.symm
  right
  refine ⟨hd, ha, ?_⟩
  by_cases hs : isShape s.currentTool = true
  · rw [draw_shape_unfold s e rect hd ha hs] at h
    cases hr : redraw { s with ctx := { s.ctx with
        lineWidth := s.brushSize, lineCap := LineCap.round, lineJoin := LineJoin.round } } with
    | none => rw [hr] at h; simp at h
    | some r =>
      rw [hr] at h
      obtain ⟨raster, c, hk, hr'⟩ := redraw_frame _ _ hr
      obtain ⟨c₂, hk₂, h₂⟩ := drawShape_eq r s.startX s.startY
        (e.clientX - rect.left) (e.clientY - rect.top)
      generalize r.canvas.raster ++ shapeOps _ _ _ _ _ _ = shown at h₂
      have hrs : r.startX = s.startX ∧ r.startY = s.startY := by rw [hr']; exact ⟨rfl, rfl⟩
      have hg : c₂.globalCompositeOperation = s.ctx.globalCompositeOperation := by
        rw [hk₂.1, hr']; exact hk.1
      simp only [Option.map_some', Option.some_bind, hrs.1, hrs.2, h₂] at h
      cases hc : s.currentAnnotation with
      | none =>
        have hrc : r.currentAnnotation = none := by rw [hr']; exact hc
        simp [hrc] at h
      | some a =>
        have hrc : r.currentAnnotation = some a := by rw [hr']; exact hc
        refine ⟨a, shown, c₂, rfl, fun h0 => hg.trans h0, ?_⟩
        simp only [hrc, Option.some.injEq] at h
        rw [← h, hr']
        simp [localPoint]
  · cases hc : s.currentAnnotation with
    | none =>
      cases ht : s.currentTool <;> simp [ht, isShape] at hs <;>
        simp [draw, hd, ha, ht, hc, stroke, beginPath, moveTo, lineTo] at h
    | some a =>
      obtain ⟨c, hg, heq⟩ := draw_eq s e rect a hd ha hc (fun h => absurd h hs)
      rw [heq] at h
      exact ⟨a, _, c, rfl, hg, (Option.some.inj h).symm⟩

theorem take_dropLast {α : Type} (l : List α) (k : Nat) :
    l.dropLast.take (l.dropLast.length - k) = l.take (l.length - (k + 1)) := by
  rw [List.length_dropLast, List.dropLast_eq_take, List.take_take]
  congr 1
  omega

theorem stopDrawing_frame (s s' : AnnotationTools) (h : stopDrawing s = some s') :
    ((s.isDrawing = false ∨ s.currentAnnotation = none) ∧
        s' = { s with isDrawing := false, currentAnnotation := none }) ∨
      ∃ a : Annotation, s.isDrawing = true ∧ s.currentAnnotation = some a ∧
        s' = { s with
          annotations := s.annotations ++
            [if isShape s.currentTool then
              { a with
                endX := a.points.getLast?.map Point.x, endY := a.points.getLast?.map Point.y }
             else a]
          isDrawing := false
          currentAnnotation := none } := by
  cases hd : s.isDrawing with
  | false => left; simp [stopDrawing, hd] at h; rw [← h]; simp
  | true =>
    cases hc : s.currentAnnotation with
    | none => left; simp [stopDrawing, hd, hc] at h; rw [← h]; simp
    | some a =>
      right
      refine ⟨a, rfl, rfl, ?_⟩
      by_cases hs : isShape s.currentTool = true
      · cases hl : a.points.getLast? with
        | none => simp [stopDrawing, hd, hc, hs, hl] at h
        | some p => simp [stopDrawing, hd, hc, hs, hl] at h; rw [← h]; simp [hs]
      · simp [stopDrawing, hd, hc, hs] at h; rw [← h]; simp [hs]

theorem undo_frame (s s' : AnnotationTools) (h : undo s = some s') :
    ∃ (raster : List DrawOp) (c : Ctx), CtxKept s.ctx c ∧
      s' = { s with
        annotations := s.annotations.dropLast
        canvas := { s.canvas with raster := raster }
        ctx := c } := by
  obtain ⟨raster, c, hc, hs'⟩ := redraw_frame _ _ h
  exact ⟨raster, c, hc, hs'⟩

theorem resizeCanvas_frame (s s' : AnnotationTools) (rect : DOMRect)
    (h : resizeCanvas s rect = some s') :
    ∃ (raster : List DrawOp) (c : Ctx),
      c.globalCompositeOperation = CompositeOp.sourceOver ∧
      s' = { s with
        canvas := { s.canvas with width := rect.width, height := rect.height, raster := raster }
        ctx := c } := by
  obtain ⟨raster, c, hc, hs'⟩ := redraw_frame _ _ h
  exact ⟨raster, c, hc.1, hs'⟩

theorem showTools_frame (s s' : AnnotationTools) (rect : DOMRect)
    (h : showTools s rect = some s') :
    ∃ (raster : List DrawOp) (c : Ctx),
      c.globalCompositeOperation = CompositeOp.sourceOver ∧
      s' = { s with
        isActive := true
        toolbarActive := true
        canvas :=
          { width := rect.width, height := rect.height, raster := raster, active := true }
        ctx := c } := by
  obtain ⟨raster, c, hc, hs'⟩ := resizeCanvas_frame _ _ _ h
  exact ⟨raster, c, hc, hs'⟩

theorem toggle_frame (s s' : AnnotationTools) (rect : DOMRect)
    (h : toggle s rect = some s') :
    s' = hide s ∨
      ∃ (raster : List DrawOp) (c : Ctx),
        c.globalCompositeOperation = CompositeOp.sourceOver ∧
        s' = { s with
          isActive := true
          toolbarActive := true
          canvas :=
            { width := rect.width, height := rect.height, raster := raster, active := true }
          ctx := c } := by
  by_cases ha : s.isActive = true
  · left; simp [toggle, ha] at h; exact h.symm
  · right; simp [toggle, ha] at h; exact showTools_frame _ _ _ h

/-! ## Invariants of a run -/

theorem run_snoc (s : AnnotationTools) (ops : List Op) (op : Op) :
    run s (ops ++ [op]) = (run s ops).bind fun t => step t op := by
  rw [run_append]
  congr 1
  funext t
  rw [run_cons]
  cases step t op <;> rfl

theorem OpenedBy.snoc {s₀ : AnnotationTools} {ops : List Op} {a : Annotation}
    (h : OpenedBy s₀ ops a) (op : Op) : OpenedBy s₀ (ops ++ [op]) a := by
  obtain ⟨pre, post, e, rect, t, hops, hrun, hact, hhead⟩ := h
  exact ⟨pre, post ++ [op], e, rect, t, by rw [hops]; simp, hrun, hact, hhead⟩

theorem OpenedBy.push {s₀ : AnnotationTools} {ops : List Op} {a : Annotation}
    (h : OpenedBy s₀ ops a) (p : Point) :
    OpenedBy s₀ ops { a with points := a.points ++ [p] } := by
  obtain ⟨pre, post, e, rect, t, hops, hrun, hact, hhead⟩ := h
  refine ⟨pre, post, e, rect, t, hops, hrun, hact, ?_⟩
  cases hp : a.points with
  | nil => rw [hp] at hhead; cases hhead
  | cons q qs => rw [hp] at hhead; simpa using hhead

theorem TraceInv.after_step {s₀ s s' : AnnotationTools} {ops : List Op} (op : Op)
    (hrun : run s₀ ops = some s) (hinv : TraceInv s₀ ops s) (h : step s op = some s') :
    TraceInv s₀ (ops ++ [op]) s' := by
  have hlog : ∀ a ∈ s.annotations, OpenedBy s₀ (ops ++ [op]) a :=
    fun a ha => (hinv.1 a ha).snoc op
  have hcur : ∀ a, s.currentAnnotation = some a → OpenedBy s₀ (ops ++ [op]) a :=
    fun a ha => (hinv.2 a ha).snoc op
  cases op with
  | pointerdown e rect =>
    simp only [step, Option.some.injEq] at h
    by_cases ha : s.isActive = true
    · rw [startDrawing_eq s e rect ha] at h
      rw [← h]
      refine ⟨hlog, fun a hc => ?_⟩
      simp only [Option.some.injEq] at hc
      exact ⟨ops, [], e, rect, s, rfl, hrun, ha, by rw [← hc]; rfl⟩
    · have : s' = s := by rw [← h]; simp [startDrawing, ha]
      rw [this]; exact ⟨hlog, hcur⟩
  | pointermove e rect =>
    rcases draw_frame s s' e rect h with h' | ⟨-, -, a, raster, c, hc, -, h'⟩
    · rw [h']; exact ⟨hlog, hcur⟩
    · rw [h']
      refine ⟨hlog, fun b hb => ?_⟩
      simp only [Option.some.injEq] at hb
      rw [← hb]
      exact (hcur a hc).push _
  | pointerup =>
    rcases stopDrawing_frame s s' h with ⟨-, h'⟩ | ⟨a, -, hc, h'⟩
    · rw [h']; exact ⟨hlog, fun a hc => by cases hc⟩
    · rw [h']
      refine ⟨fun b hb => ?_, fun a hc => by cases hc⟩
      simp only [List.mem_append, List.mem_singleton] at hb
      rcases hb with hb | hb
      · exact hlog b hb
      · obtain ⟨pre, post, e, rect, t, hops, hr, hact, hhead⟩ := hcur a hc
        refine ⟨pre, post, e, rect, t, hops, hr, hact, ?_⟩
        rw [hb]
        by_cases hs : isShape s.currentTool = true <;> simpa [hs] using hhead
  | selectTool tool =>
    simp only [step, Option.some.injEq] at h; rw [← h]; exact ⟨hlog, hcur⟩
  | selectColor color =>
    simp only [step, Option.some.injEq] at h; rw [← h]; exact ⟨hlog, hcur⟩
  | setBrushSize size =>
    simp only [step, Option.some.injEq] at h; rw [← h]; exact ⟨hlog, hcur⟩
  | undo =>
    obtain ⟨raster, c, -, h'⟩ := undo_frame s s' h
    rw [h']
    exact ⟨fun a ha => hlog a (List.dropLast_subset _ ha), hcur⟩
  | clear =>
    simp only [step, Option.some.injEq] at h
    rw [← h]
    refine ⟨fun a ha => ?_, fun a ha => hcur a ?_⟩
    · simp [clear, clearRect] at ha
    · simpa [clear, clearRect] using ha
  | showTools rect =>
    obtain ⟨raster, c, -, h'⟩ := showTools_frame s s' rect h
    rw [h']; exact ⟨hlog, hcur⟩
  | hide =>
    simp only [step, Option.some.injEq] at h; rw [← h]; exact ⟨hlog, hcur⟩
  | toggle rect =>
    rcases toggle_frame s s' rect h with h' | ⟨raster, c, -, h'⟩ <;>
      (rw [h']; exact ⟨hlog, hcur⟩)
  | resize rect =>
    obtain ⟨raster, c, -, h'⟩ := resizeCanvas_frame s s' rect h
    rw [h']; exact ⟨hlog, hcur⟩

theorem TraceInv.of_run {s₀ s : AnnotationTools} (ops : List Op)
    (h₀ : s₀.annotations = []) (hc₀ : s₀.currentAnnotation = none)
    (hrun : run s₀ ops = some s) : TraceInv s₀ ops s := by
  induction ops using List.reverseRecOn generalizing s with
  | nil =>
    simp only [run_nil, Option.some.injEq] at hrun
    rw [← hrun]
    exact ⟨fun a ha => (by rw [h₀] at ha; cases ha), fun a ha => (by rw [hc₀] at ha; cases ha)⟩
  | append_singleton ops op ih =>
    rw [run_snoc] at hrun
    cases hmid : run s₀ ops with
    | none => rw [hmid] at hrun; cases hrun
    | some t =>
      rw [hmid] at hrun
      exact (ih hmid).after_step op hmid hrun

theorem wellFormed_iff (s : AnnotationTools) :
    wellFormed s = true ↔
      logOk s.annotations = true ∧
      (s.isDrawing = true → ∃ a, s.currentAnnotation = some a ∧ a.points ≠ []) ∧
      s.ctx.globalCompositeOperation = CompositeOp.sourceOver := by
  cases hd : s.isDrawing <;> cases hc : s.currentAnnotation <;>
    simp [wellFormed, hd, hc, and_assoc]

theorem wellFormed_init (rect : DOMRect) : wellFormed (init rect) = true := rfl

theorem wellFormed_step (s s' : AnnotationTools) (op : Op) (hwf : wellFormed s = true)
    (h : step s op = some s') : wellFormed s' = true := by
  rw [wellFormed_iff] at hwf ⊢
  obtain ⟨hlog, hcur, hg⟩ := hwf
  cases op with
  | pointerdown e rect =>
    simp only [step, Option.some.injEq] at h
    by_cases ha : s.isActive = true
    · rw [startDrawing_eq s e rect ha] at h
      rw [← h]
      exact ⟨hlog, fun _ => ⟨_, rfl, by simp⟩, hg⟩
    · have : s' = s := by rw [← h]; simp [startDrawing, ha]
      rw [this]; exact ⟨hlog, hcur, hg⟩
  | pointermove e rect =>
    rcases draw_frame s s' e rect h with h' | ⟨-, -, a, raster, c, hc, hgc, h'⟩
    · rw [h']; exact ⟨hlog, hcur, hg⟩
    · rw [h']; exact ⟨hlog, fun _ => ⟨_, rfl, by simp⟩, hgc hg⟩
  | pointerup =>
    rcases stopDrawing_frame s s' h with ⟨-, h'⟩ | ⟨a, hd, hc, h'⟩
    · rw [h']; exact ⟨hlog, fun hd => (by simp at hd), hg⟩
    · obtain ⟨b, hb, hne⟩ := hcur hd
      have hab : a = b := Option.some.inj (hc.symm.trans hb)
      subst hab
      rw [h']
      refine ⟨?_, fun hd => (by simp at hd), hg⟩
      simp only [logOk_append, hlog, Bool.true_and]
      by_cases hs : isShape s.currentTool = true <;> simp [logOk, hs, hne]
  | selectTool tool =>
    simp only [step, Option.some.injEq] at h; rw [← h]; exact ⟨hlog, hcur, hg⟩
  | selectColor color =>
    simp only [step, Option.some.injEq] at h; rw [← h]; exact ⟨hlog, hcur, hg⟩
  | setBrushSize size =>
    simp only [step, Option.some.injEq] at h; rw [← h]; exact ⟨hlog, hcur, hg⟩
  | undo =>
    obtain ⟨raster, c, hk, h'⟩ := undo_frame s s' h
    rw [h']
    exact ⟨logOk_dropLast _ hlog, hcur, hk.1.trans hg⟩
  | clear =>
    simp only [step, Option.some.injEq] at h
    rw [← h]
    refine ⟨by simp [clear, clearRect, logOk], fun hd => ?_, by simpa [clear, clearRect] using hg⟩
    simpa [clear, clearRect] using hcur (by simpa [clear, clearRect] using hd)
  | showTools rect =>
    obtain ⟨raster, c, hc, h'⟩ := showTools_frame s s' rect h
    rw [h']; exact ⟨hlog, hcur, hc⟩
  | hide =>
    simp only [step, Option.some.injEq] at h; rw [← h]; exact ⟨hlog, hcur, hg⟩
  | toggle rect =>
    rcases toggle_frame s s' rect h with h' | ⟨raster, c, hc, h'⟩
    · rw [h']; exact ⟨hlog, hcur, hg⟩
    · rw [h']; exact ⟨hlog, hcur, hc⟩
  | resize rect =>
    obtain ⟨raster, c, hc, h'⟩ := resizeCanvas_frame s s' rect h
    rw [h']; exact ⟨hlog, hcur, hc⟩

theorem wellFormed_run (ops : List Op) (s s' : AnnotationTools) (hwf : wellFormed s = true)
    (h : run s ops = some s') : wellFormed s' = true := by
  induction ops generalizing s with
  | nil =>
    simp only [run_nil, Option.some.injEq] at h
    rw [← h]; exact hwf
  | cons op ops ih =>
    rw [run_cons] at h
    cases hstep : step s op with
    | none => rw [hstep] at h; cases h
    | some t =>
      rw [hstep] at h
      exact ih t (wellFormed_step s t op hwf hstep) h

theorem wellFormed_of_reachable (s : AnnotationTools) (h : Reachable s) :
    wellFormed s = true := by
  obtain ⟨rect, ops, hrun⟩ := h
  exact wellFormed_run ops _ s (wellFormed_init rect) hrun

theorem step_some (s : AnnotationTools) (op : Op) (hwf : wellFormed s = true) :
    ∃ s', step s op = some s' := by
  rw [wellFormed_iff] at hwf
  obtain ⟨hlog, hcur, -⟩ := hwf
  cases op with
  | pointerdown e rect => exact ⟨_, rfl⟩
  | pointermove e rect =>
    by_cases hd : s.isDrawing = true
    · by_cases ha : s.isActive = true
      · obtain ⟨a, hc, -⟩ := hcur hd
        obtain ⟨c, -, h⟩ := draw_eq s e rect a hd ha hc (fun _ => hlog)
        exact ⟨_, h⟩
      · exact ⟨s, by simp [step, draw, ha]⟩
    · exact ⟨s, by simp [step, draw, hd]⟩
  | pointerup =>
    by_cases hd : s.isDrawing = true
    · obtain ⟨a, hc, hp⟩ := hcur hd
      exact ⟨_, stopDrawing_eq s a hd hc hp⟩
    · exact ⟨{ s with isDrawing := false, currentAnnotation := none },
        by simp [step, stopDrawing, hd]⟩
  | selectTool tool => exact ⟨_, rfl⟩
  | selectColor color => exact ⟨_, rfl⟩
  | setBrushSize size => exact ⟨_, rfl⟩
  | undo =>
    obtain ⟨c, -, h⟩ := redraw_eq { s with annotations := s.annotations.dropLast }
      (logOk_dropLast _ hlog)
    exact ⟨_, h⟩
  | clear => exact ⟨_, rfl⟩
  | showTools rect =>
    obtain ⟨c, -, h⟩ := redraw_eq
      (setCanvasSize { s with
        isActive := true, canvas := { s.canvas with active := true }, toolbarActive := true }
        rect.width rect.height) hlog
    exact ⟨_, h⟩
  | hide => exact ⟨_, rfl⟩
  | toggle rect =>
    by_cases ha : s.isActive = true
    · exact ⟨hide s, by simp [step, toggle, ha]⟩
    · obtain ⟨c, -, h⟩ := redraw_eq
        (setCanvasSize { s with
          isActive := true, canvas := { s.canvas with active := true }, toolbarActive := true }
          rect.width rect.height) hlog
      exact ⟨_, by simp only [step, toggle, ha]; exact h⟩
  | resize rect =>
    obtain ⟨c, -, h⟩ := redraw_eq (setCanvasSize s rect.width rect.height) hlog
    exact ⟨_, h⟩

theorem run_some (ops : List Op) (s : AnnotationTools) (hwf : wellFormed s = true) :
    ∃ s', run s ops = some s' := by
  induction ops generalizing s with
  | nil => exact ⟨s, rfl⟩
  | cons op ops ih =>
    obtain ⟨t, ht⟩ := step_some s op hwf
    obtain ⟨s', hs'⟩ := ih t (wellFormed_step s t op hwf ht)
    exact ⟨s', by rw [run_cons, ht]; exact hs'⟩

/-! ## Lemmas on previews, shapes and segments -/

theorem run_press_moves (s : AnnotationTools) (down : PointerEvt × DOMRect)
    (moves : List (PointerEvt × DOMRect)) (ha : s.isActive = true)
    (hok : isShape s.currentTool = true → logOk s.annotations = true) :
    ∃ (raster : List DrawOp) (c : Ctx) (lx ly : Int),
      (s.ctx.globalCompositeOperation = CompositeOp.sourceOver →
        c.globalCompositeOperation = CompositeOp.sourceOver) ∧
      run s (Op.pointerdown down.1 down.2 :: moves.map fun m => Op.pointermove m.1 m.2)
        = some { s with
          canvas := { s.canvas with raster := raster }
          ctx := c
          isDrawing := true
          lastX := lx
          lastY := ly
          startX := down.1.clientX - down.2.left
          startY := down.1.clientY - down.2.top
          currentAnnotation := some
            { tool := s.currentTool, color := s.currentColor, size := s.brushSize,
              points := localPoint down.1 down.2 :: moves.map fun m => localPoint m.1 m.2,
              endX := none, endY := none } } := by
  obtain ⟨raster, c, lx, ly, hg, h⟩ := run_moves moves
    (startDrawing s down.1 down.2)
    { tool := s.currentTool, color := s.currentColor, size := s.brushSize,
      points := [localPoint down.1 down.2], endX := none, endY := none }
    (by simp [startDrawing_eq, ha]) (by simp [startDrawing_eq, ha])
    (by simp [startDrawing_eq, ha]) (by simpa [startDrawing_eq, ha] using hok)
  refine ⟨raster, c, lx, ly, by simpa [startDrawing_eq, ha] using hg, ?_⟩
  rw [run_cons, step, Option.some_bind, h]
  simp [startDrawing_eq, ha]

theorem ellipse_args (x1 x2 : Int) :
    2 * min x1 x2 + ((x2 - x1).natAbs : Int) = x1 + x2 ∧
      ((x2 - x1).natAbs : Int) = |x2 - x1| ∧
      x1 + x2 - |x2 - x1| = 2 * min x1 x2 ∧ x1 + x2 + |x2 - x1| = 2 * max x1 x2 := by
  have habs : ((x2 - x1).natAbs : Int) = |x2 - x1| := Int.natCast_natAbs _
  rw [habs]
  rcases le_total x1 x2 with h | h
  · rw [min_eq_left h, max_eq_right h, abs_of_nonneg (by omega)]
    refine ⟨by omega, rfl, by omega, by omega⟩
  · rw [min_eq_right h, max_eq_left h, abs_of_nonpos (by omega)]
    refine ⟨by omega, rfl, by omega, by omega⟩

theorem arg_polar (dx dy : ℝ) (h : dx ≠ 0 ∨ dy ≠ 0) :
    Real.sqrt (dx ^ 2 + dy ^ 2) * Real.cos (Complex.arg ⟨dx, dy⟩) = dx ∧
      Real.sqrt (dx ^ 2 + dy ^ 2) * Real.sin (Complex.arg ⟨dx, dy⟩) = dy := by
  have hz : (⟨dx, dy⟩ : ℂ) ≠ 0 := by
    intro h0
    have h1 := congrArg Complex.re h0
    have h2 := congrArg Complex.im h0
    simp only [Complex.zero_re, Complex.zero_im] at h1 h2
    rcases h with h | h
    · exact h h1
    · exact h h2
  have habs : Complex.abs ⟨dx, dy⟩ = Real.sqrt (dx ^ 2 + dy ^ 2) := by
    rw [Complex.abs_apply, Complex.normSq_mk]
    congr 1
    ring
  have hpos : 0 < Complex.abs ⟨dx, dy⟩ := Complex.abs.pos hz
  rw [← habs, Complex.cos_arg hz, Complex.sin_arg]
  constructor <;> field_simp

theorem pathSegments_tracePath (p : Point) (pts : List Point) (i : Nat) :
    pathSegments (some p) (tracePath pts (i + 1)) = consecutive (p :: pts) := by
  induction pts generalizing p i with
  | nil => simp [tracePath, pathSegments, consecutive]
  | cons q qs ih => simp [tracePath, pathSegments, consecutive, ih]

theorem pathSegments_polyline (pts : List Point) :
    pathSegments none (tracePath pts 0) = consecutive pts := by
  cases pts with
  | nil => simp [tracePath, pathSegments, consecutive]
  | cons p ps => simp [tracePath, pathSegments, pathSegments_tracePath]

theorem run_moves_freehand (moves : List (PointerEvt × DOMRect)) (s : AnnotationTools)
    (a : Annotation) (hd : s.isDrawing = true) (ha : s.isActive = true)
    (hc : s.currentAnnotation = some a) (hf : ¬ isShape s.currentTool = true) :
    ∃ (ops : List DrawOp) (c : Ctx) (lx ly : Int),
      ops.map strokeSegments =
        (consecutive ({ x := s.lastX, y := s.lastY } ::
          moves.map fun m => localPoint m.1 m.2)).map (fun seg => [seg]) ∧
      run s (moves.map fun m => Op.pointermove m.1 m.2) = some { s with
        canvas := { s.canvas with raster := s.canvas.raster ++ ops }
        ctx := c
        currentAnnotation := some { a with
          points := a.points ++ moves.map fun m => localPoint m.1 m.2 }
        lastX := lx
        lastY := ly } := by
  induction moves generalizing s a with
  | nil =>
    exact ⟨[], s.ctx, s.lastX, s.lastY, by simp [consecutive], by simp [run_nil, ← hc]⟩
  | cons m moves ih =>
    obtain ⟨c₁, -, h₁⟩ := draw_eq s m.1 m.2 a hd ha hc (fun h => absurd h hf)
    obtain ⟨ops, c, lx, ly, hseg, h⟩ := ih
      { s with
        canvas := { s.canvas with
          raster := drawRaster s (m.1.clientX - m.2.left) (m.1.clientY - m.2.top) }
        ctx := c₁
        currentAnnotation := some { a with points := a.points ++ [localPoint m.1 m.2] }
        lastX := m.1.clientX - m.2.left
        lastY := m.1.clientY - m.2.top }
      { a with points := a.points ++ [localPoint m.1 m.2] } hd ha rfl hf
    refine ⟨DrawOp.stroke (drawPaint s)
        [PathCmd.moveTo s.lastX s.lastY,
         PathCmd.lineTo (m.1.clientX - m.2.left) (m.1.clientY - m.2.top)] :: ops,
      c, lx, ly, ?_, ?_⟩
    · simp only [List.map_cons, consecutive, hseg, strokeSegments, pathSegments, localPoint]
    · rw [List.map_cons, run_cons, step, h₁, Option.some_bind, h]
      simp [drawRaster, hf]

/-! ## The claims -/

/-- C1 fails.  First input: a pen stroke, an eraser stroke across it, a second
pen stroke, then `undo()`.  Before the second pen stroke the surface holds the
pen stroke and the erasure; after the undo it holds the pen stroke alone, the
log being the same two annotations.  Second input: a highlighter stroke through
three points, a pen stroke, then `undo()`.  Before the pen stroke the surface
holds two separately painted segments at opacity 0.3, which overlap at their
joint; after the undo it holds one polyline painted once. -/
theorem undo_after_eraser :
    (run (init container) penThenEraser).map (fun s => (s.annotations, s.canvas.raster))
      = some ([penStroke [{ x := 10, y := 10 }, { x := 50, y := 10 }], eraserPath],
          [DrawOp.stroke
            { strokeStyle := 0xff0000, lineWidth := 4, lineCap := LineCap.round,
              lineJoin := LineJoin.round, globalAlpha := 10,
              globalCompositeOperation := CompositeOp.sourceOver }
            [PathCmd.moveTo 10 10, PathCmd.lineTo 50 10],
           DrawOp.stroke
            { strokeStyle := 0xff0000, lineWidth := 8, lineCap := LineCap.round,
              lineJoin := LineJoin.round, globalAlpha := 10,
              globalCompositeOperation := CompositeOp.destinationOut }
            [PathCmd.moveTo 30 0, PathCmd.lineTo 30 20]])
    ∧ (run (init container) (penThenEraser ++ secondStroke ++ [Op.undo])).map
        (fun s => (s.annotations, s.canvas.raster))
      = some ([penStroke [{ x := 10, y := 10 }, { x := 50, y := 10 }], eraserPath],
          [DrawOp.stroke
            { strokeStyle := 0xff0000, lineWidth := 4, lineCap := LineCap.round,
              lineJoin := LineJoin.round, globalAlpha := 10,
              globalCompositeOperation := CompositeOp.sourceOver }
            [PathCmd.moveTo 10 10, PathCmd.lineTo 50 10]])
    ∧ (run (init container) highlightThenPen).map (fun s => s.canvas.raster)
      = some
          [DrawOp.stroke
            { strokeStyle := 0xff0000, lineWidth := 12, lineCap := LineCap.round,
              lineJoin := LineJoin.round, globalAlpha := 3,
              globalCompositeOperation := CompositeOp.sourceOver }
            [PathCmd.moveTo 10 10, PathCmd.lineTo 30 10],
           DrawOp.stroke
            { strokeStyle := 0xff0000, lineWidth := 12, lineCap := LineCap.round,
              lineJoin := LineJoin.round, globalAlpha := 3,
              globalCompositeOperation := CompositeOp.sourceOver }
            [PathCmd.moveTo 30 10, PathCmd.lineTo 50 10]]
    ∧ (run (init container) (highlightThenPen ++ secondStroke ++ [Op.undo])).map
        (fun s => s.canvas.raster)
      = some
          [DrawOp.stroke
            { strokeStyle := 0xff0000, lineWidth := 12, lineCap := LineCap.round,
              lineJoin := LineJoin.round, globalAlpha := 3,
              globalCompositeOperation := CompositeOp.sourceOver }
            [PathCmd.moveTo 10 10, PathCmd.lineTo 30 10, PathCmd.lineTo 50 10]] := by
  decide

/-- C1 as amended.  From a state with the engine active, a log whose
annotations all have a point and a context composing with source-over (every
reachable active state), a gesture commits one annotation `a`, and `undo()`
then succeeds, leaves the log as it was before the gesture, and leaves the
surface equal to the one `redraw()` produces from that log before the gesture;
so it equals the surface before the gesture when that surface was such a
replay. -/
theorem undo_restores_replay (s : AnnotationTools) (down : PointerEvt × DOMRect)
    (moves : List (PointerEvt × DOMRect)) (ha : s.isActive = true)
    (hok : logOk s.annotations = true)
    (hg : s.ctx.globalCompositeOperation = CompositeOp.sourceOver) :
    ∃ s₁ s₂ r a, run s (gesture down moves) = some s₁ ∧
      s₁.annotations = s.annotations ++ [a] ∧
      undo s₁ = some s₂ ∧ redraw s = some r ∧
      s₂.annotations = s.annotations ∧ s₂.canvas = r.canvas ∧
      (r.canvas = s.canvas → s₂.canvas = s.canvas) := by
  obtain ⟨raster, c, lx, ly, hc, h₁⟩ := run_gesture s down moves ha (fun _ => hok)
  obtain ⟨c₂, hk₂, h₂⟩ := redraw_eq
    { s with
      canvas := { s.canvas with raster := raster }
      ctx := c
      isDrawing := false
      lastX := lx
      lastY := ly
      startX := down.1.clientX - down.2.left
      startY := down.1.clientY - down.2.top
      annotations := s.annotations
      currentAnnotation := none } hok
  obtain ⟨c₃, hk₃, h₃⟩ := redraw_eq s hok
  have hcanvas :
      ({ s.canvas with raster := replay c.globalCompositeOperation s.annotations } : Canvas)
        = { s.canvas with raster := replay s.ctx.globalCompositeOperation s.annotations } := by
    rw [hc hg, hg]
  refine ⟨_, ?s₂, _, _, h₁, rfl, ?hu, h₃, ?hlog, ?hsurface, ?hsame⟩
  case hu =>
    simp only [undo, List.dropLast_concat]
    exact h₂
  case hlog => rfl
  case hsurface => exact hcanvas
  case hsame =>
    intro h
    rw [← h]
    exact hcanvas

/-- Witness of C1 as amended: a second pen stroke on `oneStroke`, then undo. -/
theorem undo_restores_replay_witness :
    oneStroke.isActive = true ∧ logOk oneStroke.annotations = true ∧
      oneStroke.ctx.globalCompositeOperation = CompositeOp.sourceOver ∧
      ∃ s₁ s₂ r a, run oneStroke secondStroke = some s₁ ∧
        s₁.annotations = oneStroke.annotations ++ [a] ∧
        undo s₁ = some s₂ ∧ redraw oneStroke = some r ∧
        s₂.annotations = oneStroke.annotations ∧ s₂.canvas = r.canvas ∧
        (r.canvas = oneStroke.canvas → s₂.canvas = oneStroke.canvas) :=
  ⟨by decide, by decide, by decide,
    undo_restores_replay oneStroke (ptr 10 40, container) [(ptr 50 40, container)]
      (by decide) (by decide) (by decide)⟩

/-- C2 fails: a move of the eraser from (30,0) to (30,20) paints a stroke of width
8 composed with destination-out, and the replay of the committed eraser
annotation paints nothing, so the pen stroke it crossed is whole again. -/
theorem eraser_not_replayed :
    (draw eraserDown (ptr 30 20) container).map (fun s => s.canvas.raster)
      = some (oneStroke.canvas.raster ++
          [DrawOp.stroke
            { strokeStyle := 0xff0000, lineWidth := 8, lineCap := LineCap.round,
              lineJoin := LineJoin.round, globalAlpha := 10,
              globalCompositeOperation := CompositeOp.destinationOut }
            [PathCmd.moveTo 30 0, PathCmd.lineTo 30 20]])
    ∧ ( redrawAnnotation oneStroke eraserPath).map (fun s => s.canvas.raster)
      = some oneStroke.canvas.raster
    ∧ (redraw { oneStroke with annotations := oneStroke.annotations ++ [eraserPath] }).map
        (fun s => s.canvas.raster)
      = some oneStroke.canvas.raster := by
  decide

/-- C2 as amended.  In a context composing with source-over, a move of an open
gesture paints last a call that follows the rule of the current tool and size,
for each of the six tools; the replay of an annotation with a point (and, for a
shape, an end point) paints exactly one call, which follows the rule of its
tool and size, for every tool but the eraser; the replay of an eraser
annotation paints nothing. -/
theorem replay_follows_rules_except_eraser (s : AnnotationTools) (e : PointerEvt)
    (rect : DOMRect) (cur a : Annotation)
    (hg : s.ctx.globalCompositeOperation = CompositeOp.sourceOver)
    (hd : s.isDrawing = true) (hact : s.isActive = true)
    (hc : s.currentAnnotation = some cur) (hok : logOk s.annotations = true)
    (hp : a.points ≠ [])
    (hend : isShape a.tool = true → a.endX.isSome = true ∧ a.endY.isSome = true) :
    (∃ s' op, draw s e rect = some s' ∧ s'.canvas.raster.getLast? = some op ∧
        op.obeys (renderingRule s.currentTool s.brushSize) = true) ∧
      ∃ s' ops, redrawAnnotation s a = some s' ∧
        s'.canvas.raster = s.canvas.raster ++ ops ∧
        (a.tool = Tool.eraser → ops = []) ∧
        (a.tool ≠ Tool.eraser →
          ∃ op, ops = [op] ∧ op.obeys (renderingRule a.tool a.size) = true) := by
  constructor
  · obtain ⟨c, -, h⟩ := draw_eq s e rect cur hd hact hc (fun _ => hok)
    have key : ∃ op,
        (drawRaster s (e.clientX - rect.left) (e.clientY - rect.top)).getLast? = some op ∧
          op.obeys (renderingRule s.currentTool s.brushSize) = true := by
      cases ht : s.currentTool <;>
        simp [drawRaster, isShape, ht, shapeOps, drawPaint, DrawOp.obeys, DrawOp.paint?,
          Paint.obeys, renderingRule, hg]
    obtain ⟨op, hop, hobeys⟩ := key
    exact ⟨_, op, h, hop, hobeys⟩
  · obtain ⟨c, -, h⟩ := redrawAnnotation_eq s a hp
    refine ⟨_, _, h, rfl, ?_, ?_⟩
    · intro ht
      simp [replayOps, ht, isShape]
    · intro ht
      obtain ⟨tool, color, size, points, endX, endY⟩ := a
      cases tool <;> simp [isShape] at hend ht ⊢ <;>
        first
        | (obtain ⟨x2, hx⟩ := Option.isSome_iff_exists.mp hend.1
           obtain ⟨y2, hy⟩ := Option.isSome_iff_exists.mp hend.2
           subst hx hy
           cases points with
           | nil => exact absurd rfl hp
           | cons p ps =>
             simp [replayOps, isShape, shapeOps, replayPaint, DrawOp.obeys, DrawOp.paint?,
               Paint.obeys, renderingRule, hg])
        | simp [replayOps, isShape, replayPaint, DrawOp.obeys, DrawOp.paint?,
            Paint.obeys, renderingRule, hg]

/-- Witness of C2 as amended: the eraser pressed at (30,0) on `oneStroke` and
moved to (30,20), and the replay of the eraser annotation. -/
theorem replay_follows_rules_except_eraser_witness :
    eraserDown.ctx.globalCompositeOperation = CompositeOp.sourceOver ∧
      eraserDown.isDrawing = true ∧ eraserDown.isActive = true ∧
      eraserDown.currentAnnotation = some { eraserPath with points := [{ x := 30, y := 0 }] } ∧
      logOk eraserDown.annotations = true ∧ eraserPath.points ≠ [] ∧
      (isShape eraserPath.tool = true →
        eraserPath.endX.isSome = true ∧ eraserPath.endY.isSome = true) ∧
      (∃ s' op, draw eraserDown (ptr 30 20) container = some s' ∧
        s'.canvas.raster.getLast? = some op ∧
        op.obeys (renderingRule Tool.eraser 4) = true) ∧
      ∃ s' ops, redrawAnnotation eraserDown eraserPath = some s' ∧
        s'.canvas.raster = eraserDown.canvas.raster ++ ops ∧
        (eraserPath.tool = Tool.eraser → ops = []) ∧
        (eraserPath.tool ≠ Tool.eraser →
          ∃ op, ops = [op] ∧ op.obeys (renderingRule eraserPath.tool eraserPath.size) = true) :=
  ⟨by decide, by decide, by decide, by decide, by decide, by decide, by decide,
    replay_follows_rules_except_eraser eraserDown (ptr 30 20) container
      { eraserPath with points := [{ x := 30, y := 0 }] } eraserPath
      (by decide) (by decide) (by decide) (by decide) (by decide) (by decide) (by decide)⟩

/-- C3. For a log of `n` annotations and every `k`, `k` calls of `undo()` succeed
and leave the log equal to its first `n - k` entries (none when `k ≥ n`), in
their original order. -/
theorem undo_k_times (k : Nat) (s : AnnotationTools) (hok : logOk s.annotations = true) :
    ∃ s', run s (List.replicate k Op.undo) = some s' ∧
      s'.annotations = s.annotations.take (s.annotations.length - k) := by
  induction k generalizing s with
  | zero => exact ⟨s, rfl, by simp⟩
  | succ k ih =>
    obtain ⟨c, -, h⟩ := redraw_eq { s with annotations := s.annotations.dropLast }
      (logOk_dropLast _ hok)
    obtain ⟨s', hrun, hlog⟩ := ih
      { s with
        annotations := s.annotations.dropLast
        canvas := { s.canvas with
          raster := replay s.ctx.globalCompositeOperation s.annotations.dropLast }
        ctx := c } (logOk_dropLast _ hok)
    refine ⟨s', ?_, ?_⟩
    · rw [List.replicate_succ, run_cons, step, undo, h, Option.some_bind]
      exact hrun
    · rw [hlog]
      exact take_dropLast _ k

/-- Witness of C3: three committed strokes, two undos, the log holds the first
stroke only. -/
theorem undo_k_times_witness :
    logOk threeStrokes.annotations = true ∧
      ∃ s', run threeStrokes (List.replicate 2 Op.undo) = some s' ∧
        s'.annotations = [penStroke [{ x := 10, y := 10 }, { x := 50, y := 10 }]] :=
  ⟨by decide, undo_k_times 2 threeStrokes (by decide)⟩

/-- C4. Whatever the state, `clear()` leaves an empty log and a transparent
surface of the same size, and the tool, colour and size selections as they
were. -/
theorem clear_empties (s : AnnotationTools) :
    (clear s).annotations = [] ∧ (clear s).canvas.raster = [] ∧
      (clear s).canvas.width = s.canvas.width ∧ (clear s).canvas.height = s.canvas.height ∧
      (clear s).currentTool = s.currentTool ∧ (clear s).currentColor = s.currentColor ∧
      (clear s).brushSize = s.brushSize := by
  simp [clear, clearRect]

/-- C5. With the engine active and a freehand tool selected, a press at `p0`,
moves at `p1 .. pk` and a release run without fault and append exactly one
annotation: tool, colour and size of the tool state, points `[p0, p1, .., pk]`
in order, no end point. -/
theorem freehand_gesture_commits (s : AnnotationTools) (down : PointerEvt × DOMRect)
    (moves : List (PointerEvt × DOMRect)) (ha : s.isActive = true)
    (hf : s.currentTool = Tool.pen ∨ s.currentTool = Tool.highlighter ∨
      s.currentTool = Tool.eraser) :
    ∃ s', run s (gesture down moves) = some s' ∧
      s'.annotations = s.annotations ++
        [{ tool := s.currentTool, color := s.currentColor, size := s.brushSize,
           points := localPoint down.1 down.2 :: moves.map fun m => localPoint m.1 m.2,
           endX := none, endY := none }] := by
  have hs : ¬ isShape s.currentTool = true := by
    rcases hf with h | h | h <;> simp [h, isShape]
  obtain ⟨raster, c, lx, ly, -, h⟩ := run_gesture s down moves ha (fun h => absurd h hs)
  exact ⟨_, h, by simp [committed, hs]⟩

/-- Witness of C5: pen, red, size 4, pressed at (10,10) and moved to (50,10). -/
theorem freehand_gesture_commits_witness :
    ready.isActive = true ∧
      (ready.currentTool = Tool.pen ∨ ready.currentTool = Tool.highlighter ∨
        ready.currentTool = Tool.eraser) ∧
      ∃ s', run ready (gesture (ptr 10 10, container) [(ptr 50 10, container)]) = some s' ∧
        s'.annotations =
          [{ tool := Tool.pen, color := 0xff0000, size := 4,
             points := [{ x := 10, y := 10 }, { x := 50, y := 10 }],
             endX := none, endY := none }] :=
  ⟨by decide, by decide,
    freehand_gesture_commits ready (ptr 10 10, container) [(ptr 50 10, container)]
      (by decide) (by decide)⟩

/-- C6. With the engine active, a shape tool selected and a log whose
annotations all have a point, a press at `p0`, moves ending at `pk` and a
release run without fault and append exactly one annotation with that tool,
first point `p0` and end point `pk`; with no move the end point is `p0`. -/
theorem shape_gesture_commits (s : AnnotationTools) (down : PointerEvt × DOMRect)
    (moves : List (PointerEvt × DOMRect)) (ha : s.isActive = true)
    (hs : s.currentTool = Tool.arrow ∨ s.currentTool = Tool.rectangle ∨
      s.currentTool = Tool.circle)
    (hok : logOk s.annotations = true) :
    ∃ s' a, run s (gesture down moves) = some s' ∧
      s'.annotations = s.annotations ++ [a] ∧
      a.tool = s.currentTool ∧
      a.points.head? = some (localPoint down.1 down.2) ∧
      a.endX = some ((moves.map fun m => localPoint m.1 m.2).getLastD
        (localPoint down.1 down.2)).x ∧
      a.endY = some ((moves.map fun m => localPoint m.1 m.2).getLastD
        (localPoint down.1 down.2)).y := by
  have hs' : isShape s.currentTool = true := by
    rcases hs with h | h | h <;> simp [h, isShape]
  obtain ⟨raster, c, lx, ly, -, h⟩ := run_gesture s down moves ha (fun _ => hok)
  refine ⟨_, _, h, rfl, rfl, rfl, ?_, ?_⟩ <;>
    simp [committed, hs', List.getLast?_cons, List.getLastD_eq_getLast?]

/-- Witness of C6: a rectangle dragged from (20,20) to (80,60). -/
theorem shape_gesture_commits_witness :
    ∃ s' a,
      run { ready with currentTool := Tool.rectangle }
        (gesture (ptr 20 20, container) [(ptr 50 40, container), (ptr 80 60, container)])
        = some s' ∧
      s'.annotations = [a] ∧ a.tool = Tool.rectangle ∧
      a.points.head? = some { x := 20, y := 20 } ∧ a.endX = some 80 ∧ a.endY = some 60 :=
  shape_gesture_commits { ready with currentTool := Tool.rectangle } (ptr 20 20, container)
    [(ptr 50 40, container), (ptr 80 60, container)] (by decide) (by decide) (by decide)

/-- C7. Committed annotations are never altered and commits only append: for
every event handled without fault, the log afterwards is the log before with
its last entry dropped (`undo`), empty (`clear`), the log before followed by the
annotation of the open gesture with its tool, colour, size and points (a
release while a gesture is open), or the log before unchanged (every other
event: press, move, release without a gesture, tool, colour or size selection,
show, hide, toggle, resize). -/
theorem commits_are_additive (s s' : AnnotationTools) (op : Op) (h : step s op = some s') :
    LogEffect s s' op := by
  cases op with
  | pointerdown e rect =>
    simp only [step, Option.some.injEq] at h
    rw [← h]
    by_cases ha : s.isActive = true <;> simp [LogEffect, startDrawing, ha]
  | pointermove e rect =>
    rcases draw_frame s s' e rect h with h' | ⟨-, -, a, raster, c, -, -, h'⟩ <;>
      simp [LogEffect, h']
  | pointerup =>
    rcases stopDrawing_frame s s' h with ⟨hno, h'⟩ | ⟨a, hd, hc, h'⟩
    · refine ⟨fun cur hd hc => ?_, fun _ => by rw [h']⟩
      rcases hno with hno | hno
      · rw [hno] at hd; cases hd
      · rw [hno] at hc; cases hc
    · refine ⟨fun cur _ hcur => ?_, fun hno => ?_⟩
      · have hcur' : a = cur := Option.some.inj (hc.symm.trans hcur)
        subst hcur'
        by_cases hs : isShape s.currentTool = true
        · exact ⟨{ a with
            endX := a.points.getLast?.map Point.x, endY := a.points.getLast?.map Point.y },
            rfl, rfl, rfl, rfl, by rw [h']; simp [hs]⟩
        · exact ⟨a, rfl, rfl, rfl, rfl, by rw [h']; simp [hs]⟩
      · rcases hno with hno | hno
        · rw [hno] at hd; cases hd
        · rw [hno] at hc; cases hc
  | selectTool tool => simp only [step, Option.some.injEq] at h; simp [LogEffect, ← h]
  | selectColor color => simp only [step, Option.some.injEq] at h; simp [LogEffect, ← h]
  | setBrushSize size => simp only [step, Option.some.injEq] at h; simp [LogEffect, ← h]
  | undo =>
    obtain ⟨raster, c, -, h'⟩ := undo_frame s s' h
    simp [LogEffect, h']
  | clear =>
    simp only [step, Option.some.injEq] at h
    simp [LogEffect, ← h, clear, clearRect]
  | showTools rect =>
    obtain ⟨raster, c, -, h'⟩ := showTools_frame s s' rect h
    simp [LogEffect, h']
  | hide => simp only [step, Option.some.injEq] at h; simp [LogEffect, ← h, hide]
  | toggle rect =>
    rcases toggle_frame s s' rect h with h' | ⟨raster, c, -, h'⟩ <;> simp [LogEffect, h', hide]
  | resize rect =>
    obtain ⟨raster, c, -, h'⟩ := resizeCanvas_frame s s' rect h
    simp [LogEffect, h']

/-- Witness of C7: releasing an eraser gesture drawn across a committed pen
stroke appends the eraser annotation and leaves the pen stroke as it was. -/
theorem commits_are_additive_witness :
    step midErase Op.pointerup
        = some { midErase with
            isDrawing := false
            currentAnnotation := none
            annotations :=
              [penStroke [{ x := 10, y := 10 }, { x := 50, y := 10 }],
               { tool := Tool.eraser, color := 0xff0000, size := 4,
                 points := [{ x := 30, y := 0 }, { x := 30, y := 20 }],
                 endX := none, endY := none }] } ∧
      LogEffect midErase
        { midErase with
          isDrawing := false
          currentAnnotation := none
          annotations :=
            [penStroke [{ x := 10, y := 10 }, { x := 50, y := 10 }],
             { tool := Tool.eraser, color := 0xff0000, size := 4,
               points := [{ x := 30, y := 0 }, { x := 30, y := 20 }],
               endX := none, endY := none }] }
        Op.pointerup :=
  ⟨by decide, commits_are_additive _ _ _ (by decide)⟩

/-- C8, the code at the failing inputs.  A rectangle gesture during which the
pen is selected commits a rectangle annotation with no end point, and a pen
gesture during which the rectangle is selected commits a pen annotation with an
end point: `stopDrawing` tests `currentTool`, not the tool of the annotation. -/
theorem tool_change_during_gesture :
    (run (init container)
        [Op.showTools container, Op.selectTool Tool.rectangle,
         Op.pointerdown (ptr 20 20) container, Op.pointermove (ptr 80 60) container,
         Op.selectTool Tool.pen, Op.pointerup]).map (fun s => s.annotations)
      = some [{ tool := Tool.rectangle, color := 0xff0000, size := 4,
                points := [{ x := 20, y := 20 }, { x := 80, y := 60 }],
                endX := none, endY := none }]
    ∧ (run (init container)
        [Op.showTools container,
         Op.pointerdown (ptr 10 10) container, Op.pointermove (ptr 50 10) container,
         Op.selectTool Tool.rectangle, Op.pointerup]).map (fun s => s.annotations)
      = some [{ tool := Tool.pen, color := 0xff0000, size := 4,
                points := [{ x := 10, y := 10 }, { x := 50, y := 10 }],
                endX := some 50, endY := some 10 }] := by
  decide

/-- C9. Every sequence of events runs from a fresh instance without fault, and
in the state it reaches every annotation of the log has a point, its first
point being the coordinate of a press of the history that was handled while
the engine was active, so that it opened a gesture. -/
theorem log_points_start_at_press (rect : DOMRect) (ops : List Op) :
    ∃ s, run (init rect) ops = some s ∧
      ∀ a ∈ s.annotations, a.points ≠ [] ∧
        ∃ (pre post : List Op) (e : PointerEvt) (r : DOMRect) (t : AnnotationTools),
          ops = pre ++ Op.pointerdown e r :: post ∧ run (init rect) pre = some t ∧
            t.isActive = true ∧ a.points.head? = some (localPoint e r) := by
  obtain ⟨s, hrun⟩ := run_some ops (init rect) (wellFormed_init rect)
  refine ⟨s, hrun, fun a ha => ?_⟩
  have hopen : OpenedBy (init rect) ops a := (TraceInv.of_run ops rfl rfl hrun).1 a ha
  refine ⟨fun hnil => ?_, hopen⟩
  obtain ⟨pre, post, e, r, t, -, -, -, hhead⟩ := hopen
  rw [hnil] at hhead
  cases hhead

/-- Witness of C9: after `show()` and one pen stroke, the stroke of the log
starts at a press handled while the engine was active. -/
theorem log_points_start_at_press_witness :
    run (init container) oneStrokeOps = some oneStroke ∧
      penStroke [{ x := 10, y := 10 }, { x := 50, y := 10 }] ∈ oneStroke.annotations ∧
      (penStroke [{ x := 10, y := 10 }, { x := 50, y := 10 }]).points ≠ [] ∧
      ∃ (pre post : List Op) (e : PointerEvt) (r : DOMRect) (t : AnnotationTools),
        oneStrokeOps = pre ++ Op.pointerdown e r :: post ∧ run (init container) pre = some t ∧
          t.isActive = true ∧
          (penStroke [{ x := 10, y := 10 }, { x := 50, y := 10 }]).points.head?
            = some (localPoint e r) := by
  obtain ⟨s, hrun, h⟩ := log_points_start_at_press container oneStrokeOps
  have hs : s = oneStroke := Option.some.inj (hrun.symm.trans (by decide))
  subst hs
  exact ⟨hrun, by decide, h _ (by decide)⟩

/-- C10 fails: after a stroke and `hide()` the engine is inactive with one
annotation in the log and its stroke on the surface; `clear()` then empties the
log and the surface, and so does `undo()`. -/
theorem undo_and_clear_while_inactive :
    (run (init container) (oneStrokeOps ++ [Op.hide])).map
        (fun s => (s.isActive, s.annotations, s.canvas.raster))
      = some (false, oneStroke.annotations, oneStroke.canvas.raster)
    ∧ oneStroke.annotations ≠ [] ∧ oneStroke.canvas.raster ≠ []
    ∧ (run (init container) (oneStrokeOps ++ [Op.hide, Op.clear])).map
        (fun s => (s.isActive, s.annotations, s.canvas.raster))
      = some (false, [], [])
    ∧ (run (init container) (oneStrokeOps ++ [Op.hide, Op.undo])).map
        (fun s => (s.isActive, s.annotations, s.canvas.raster))
      = some (false, [], []) := by
  decide

/-- C10 as amended.  While the engine is inactive a press and a move change
nothing.  `undo()`, `clear()` and a release are not guarded: `undo()` drops the
last annotation, `clear()` empties the log and wipes the surface, and a release
commits the annotation of an open gesture, the engine staying inactive. -/
theorem inactive_guards (s : AnnotationTools) (e : PointerEvt) (rect : DOMRect)
    (h : s.isActive = false) :
    startDrawing s e rect = s ∧ draw s e rect = some s ∧
      (clear s).annotations = [] ∧ (clear s).canvas.raster = [] ∧
      (clear s).isActive = false ∧
      (logOk s.annotations = true →
        ∃ u, undo s = some u ∧ u.isActive = false ∧
          u.annotations = s.annotations.dropLast) ∧
      (∀ a, s.isDrawing = true → s.currentAnnotation = some a → a.points ≠ [] →
        ∃ t b, stopDrawing s = some t ∧ t.isActive = false ∧
          t.annotations = s.annotations ++ [b] ∧ b.points = a.points) := by
  refine ⟨by simp [startDrawing, h], by simp [draw, h], by simp [clear, clearRect],
    by simp [clear, clearRect], by simp [clear, clearRect, h], fun hok => ?_,
    fun a hd hc hp => ?_⟩
  · obtain ⟨c, -, hu⟩ := redraw_eq { s with annotations := s.annotations.dropLast }
      (logOk_dropLast _ hok)
    exact ⟨_, hu, h, rfl⟩
  · refine ⟨_, _, stopDrawing_eq s a hd hc hp, h, rfl, ?_⟩
    by_cases hs : isShape s.currentTool = true <;> simp [hs]

/-- Witness of C10 as amended: the instance with three strokes, hidden. -/
theorem inactive_guards_witness :
    (hide threeStrokes).isActive = false ∧
      startDrawing (hide threeStrokes) (ptr 5 5) container = hide threeStrokes ∧
      draw (hide threeStrokes) (ptr 5 5) container = some (hide threeStrokes) :=
  ⟨by decide,
    (inactive_guards (hide threeStrokes) (ptr 5 5) container (by decide)).1,
    (inactive_guards (hide threeStrokes) (ptr 5 5) container (by decide)).2.1⟩

/-- C11 fails in its last part: with a gesture left open by `hide()`, a press
while the engine is inactive changes nothing, and the release that follows
commits the annotation of the open gesture. -/
theorem release_after_inactive_press :
    (run (init container) hiddenMidStroke).map
        (fun s => (s.isActive, s.isDrawing, s.annotations))
      = some (false, true, [])
    ∧ (run (init container)
        (hiddenMidStroke ++ [Op.pointerdown (ptr 20 20) container, Op.pointerup])).map
        (fun s => (s.isActive, s.isDrawing, s.annotations))
      = some (false, false, [penStroke [{ x := 10, y := 10 }, { x := 50, y := 10 }]]) := by
  decide

/-- C11 as amended.  A press while the engine is inactive changes nothing at
all, and the release after it does what a release alone would do: it commits
nothing when no gesture was open.  A move while no gesture is open changes
nothing at all.  `undo()` on an empty log succeeds and leaves the log empty and
the tool state and the gesture state as they were. -/
theorem out_of_sequence_input (s : AnnotationTools) (e : PointerEvt) (rect : DOMRect) :
    (s.isActive = false →
      startDrawing s e rect = s ∧
      run s [Op.pointerdown e rect, Op.pointerup] = stopDrawing s ∧
      (s.isDrawing = false →
        ∃ t, run s [Op.pointerdown e rect, Op.pointerup] = some t ∧
          t.annotations = s.annotations)) ∧
    (s.isDrawing = false → draw s e rect = some s) ∧
    (s.annotations = [] →
      ∃ u, undo s = some u ∧ u.annotations = [] ∧
        u.currentTool = s.currentTool ∧ u.currentColor = s.currentColor ∧
        u.brushSize = s.brushSize ∧ u.isActive = s.isActive ∧
        u.isDrawing = s.isDrawing ∧ u.currentAnnotation = s.currentAnnotation) := by
  refine ⟨fun ha => ?_, fun hd => by simp [draw, hd], fun hlog => ?_⟩
  · have hstart : startDrawing s e rect = s := by simp [startDrawing, ha]
    have hrun : run s [Op.pointerdown e rect, Op.pointerup] = stopDrawing s := by
      rw [run_cons, step, hstart, Option.some_bind, run_cons, step]
      cases stopDrawing s <;> rfl
    refine ⟨hstart, hrun, fun hd => ?_⟩
    rw [hrun]
    exact ⟨{ s with isDrawing := false, currentAnnotation := none },
      by simp [stopDrawing, hd], rfl⟩
  · obtain ⟨c, -, h⟩ := redraw_eq { s with annotations := s.annotations.dropLast }
      (by simp [hlog, logOk])
    exact ⟨_, h, by simp [hlog], rfl, rfl, rfl, rfl, rfl, rfl⟩

/-- Witness of C11 as amended: the fresh instance, inactive, idle, with an empty
log. -/
theorem out_of_sequence_input_witness :
    (init container).isActive = false ∧ (init container).isDrawing = false ∧
      (init container).annotations = [] ∧
      startDrawing (init container) (ptr 5 5) container = init container ∧
      draw (init container) (ptr 5 5) container = some (init container) ∧
      ∃ t, run (init container) [Op.pointerdown (ptr 5 5) container, Op.pointerup] = some t ∧
        t.annotations = (init container).annotations :=
  ⟨by decide, by decide, by decide,
    ((out_of_sequence_input (init container) (ptr 5 5) container).1 (by decide)).1,
    (out_of_sequence_input (init container) (ptr 5 5) container).2.1 (by decide),
    ((out_of_sequence_input (init container) (ptr 5 5) container).1 (by decide)).2.2
      (by decide)⟩

/-- C12. `hide()` writes `isActive` and the two `active` classes only: the log,
the tool, colour and size selections, the gesture state and the surface are as
they were.  With a log whose annotations all have a point, `show()` after it
succeeds with the same log and selections, and its surface is the replay of
that log, in order. -/
theorem hide_keeps_log (s : AnnotationTools) (rect : DOMRect)
    (hok : logOk s.annotations = true) :
    (hide s).annotations = s.annotations ∧ (hide s).currentTool = s.currentTool ∧
      (hide s).currentColor = s.currentColor ∧ (hide s).brushSize = s.brushSize ∧
      (hide s).isDrawing = s.isDrawing ∧ AnnotationTools.currentAnnotation (hide s) = s.currentAnnotation ∧
      (hide s).canvas.raster = s.canvas.raster ∧ (hide s).canvas.width = s.canvas.width ∧
      (hide s).canvas.height = s.canvas.height ∧ (hide s).ctx = s.ctx ∧
      (hide s).isActive = false ∧
      ∃ s', run s [Op.hide, Op.showTools rect] = some s' ∧
        s'.annotations = s.annotations ∧ s'.currentTool = s.currentTool ∧
        s'.currentColor = s.currentColor ∧ s'.brushSize = s.brushSize ∧
        s'.isActive = true ∧
        s'.canvas.raster = replay CompositeOp.sourceOver s.annotations := by
  refine ⟨rfl, rfl, rfl, rfl, rfl, rfl, rfl, rfl, rfl, rfl, rfl, ?_⟩
  obtain ⟨c, -, h⟩ := redraw_eq
    (setCanvasSize { hide s with
      isActive := true, canvas := { (hide s).canvas with active := true }, toolbarActive := true }
      rect.width rect.height) hok
  have hrun : run s [Op.hide, Op.showTools rect] = some { s with
      isActive := true
      toolbarActive := true
      canvas :=
        { width := rect.width, height := rect.height,
          raster := replay CompositeOp.sourceOver s.annotations, active := true }
      ctx := c } := by
    rw [run_cons, step, Option.some_bind, run_cons, step, showTools, resizeCanvas, h,
      Option.some_bind, run_nil]
    simp [hide, setCanvasSize, Ctx.initial]
  exact ⟨_, hrun, rfl, rfl, rfl, rfl, rfl, rfl⟩

/-- Witness of C12: the instance with three strokes, hidden and shown again. -/
theorem hide_keeps_log_witness :
    logOk threeStrokes.annotations = true ∧
      (hide threeStrokes).annotations = threeStrokes.annotations ∧
      ∃ s', run threeStrokes [Op.hide, Op.showTools container] = some s' ∧
        s'.annotations = threeStrokes.annotations ∧ s'.currentTool = Tool.pen ∧
        s'.currentColor = 0xff0000 ∧ s'.brushSize = 4 ∧ s'.isActive = true ∧
        s'.canvas.raster = replay CompositeOp.sourceOver threeStrokes.annotations := by
  obtain ⟨hlog, -, -, -, -, -, -, -, -, -, -, hshow⟩ :=
    hide_keeps_log threeStrokes container (by decide)
  exact ⟨by decide, hlog, hshow⟩

/-- C13 fails for eraser annotations: after a pen stroke and an eraser stroke
across it, a resize to 1280 by 720 keeps both annotations in the log, and the
replay it triggers paints the pen stroke alone, at its stored coordinates; the
eraser annotation is not drawn. -/
theorem resize_skips_eraser :
    (run (init container) (penThenEraser ++ [Op.resize wideContainer])).map
        (fun s => (s.canvas.width, s.canvas.height, s.annotations, s.canvas.raster))
      = some (1280, 720,
          [penStroke [{ x := 10, y := 10 }, { x := 50, y := 10 }], eraserPath],
          [DrawOp.stroke
            { strokeStyle := 0xff0000, lineWidth := 4, lineCap := LineCap.round,
              lineJoin := LineJoin.round, globalAlpha := 10,
              globalCompositeOperation := CompositeOp.sourceOver }
            [PathCmd.moveTo 10 10, PathCmd.lineTo 50 10]]) := by
  decide

/-- C13 as amended.  With a log whose annotations all have a point,
`resizeCanvas` succeeds and changes the canvas size, the raster and the drawing
state only: the log and every other field are as they were.  The raster is the
replay of the log, the same whatever the old and the new size: a pen or
highlighter annotation is one polyline through its stored points, a shape with
an end point is drawn from its first stored point to its stored end point, and
an eraser annotation is skipped. -/
theorem resize_keeps_coordinates (s : AnnotationTools) (rect : DOMRect)
    (hok : logOk s.annotations = true) :
    (∃ c : Ctx, resizeCanvas s rect = some { s with
        canvas := { s.canvas with
          width := rect.width, height := rect.height,
          raster := replay CompositeOp.sourceOver s.annotations }
        ctx := c }) ∧
      ∀ a : Annotation,
        (a.tool = Tool.pen ∨ a.tool = Tool.highlighter →
          replayOps CompositeOp.sourceOver a =
            [DrawOp.stroke (replayPaint CompositeOp.sourceOver a) (tracePath a.points 0)]) ∧
        (isShape a.tool = true →
          ∀ (start : Point) (x2 y2 : Int), a.points.head? = some start →
            a.endX = some x2 → a.endY = some y2 →
            replayOps CompositeOp.sourceOver a =
              shapeOps (replayPaint CompositeOp.sourceOver a) a.tool start.x start.y x2 y2) ∧
        (a.tool = Tool.eraser → replayOps CompositeOp.sourceOver a = []) := by
  constructor
  · obtain ⟨c, -, h⟩ := redraw_eq (setCanvasSize s rect.width rect.height) hok
    exact ⟨c, by rw [resizeCanvas, h]; simp [setCanvasSize, Ctx.initial]⟩
  · intro a
    refine ⟨fun h => ?_, fun h start x2 y2 hs hx hy => ?_, fun h => ?_⟩
    · rcases h with h | h <;> simp [replayOps, h, isShape]
    · simp [replayOps, h, hs, hx, hy]
    · simp [replayOps, h, isShape]

/-- Witness of C13 as amended: `oneStroke` resized to 1280 by 720. -/
theorem resize_keeps_coordinates_witness :
    logOk oneStroke.annotations = true ∧
      ∃ c : Ctx, resizeCanvas oneStroke wideContainer = some { oneStroke with
        canvas := { oneStroke.canvas with
          width := 1280, height := 720,
          raster := replay CompositeOp.sourceOver oneStroke.annotations }
        ctx := c } :=
  ⟨by decide, (resize_keeps_coordinates oneStroke wideContainer (by decide)).1⟩

/-- C14. With a log whose annotations all have a point and a context composing
with source-over (every reachable state), `redraw()` succeeds, a second
`redraw()` leaves the same surface, and the surface is the same from any other
state with the same log and canvas size, whatever its raster and its tool
state. -/
theorem redraw_idempotent (s t : AnnotationTools) (hok : logOk s.annotations = true)
    (hg : s.ctx.globalCompositeOperation = CompositeOp.sourceOver)
    (htg : t.ctx.globalCompositeOperation = CompositeOp.sourceOver)
    (hlog : t.annotations = s.annotations) (hw : t.canvas.width = s.canvas.width)
    (hh : t.canvas.height = s.canvas.height) :
    ∃ r r' rt, redraw s = some r ∧ redraw r = some r' ∧ r'.canvas = r.canvas ∧
      redraw t = some rt ∧ rt.canvas.raster = r.canvas.raster ∧
      rt.canvas.width = r.canvas.width ∧ rt.canvas.height = r.canvas.height := by
  obtain ⟨c₁, hk₁, h₁⟩ := redraw_eq s hok
  obtain ⟨c₂, -, h₂⟩ := redraw_eq
    { s with
      canvas := { s.canvas with raster := replay s.ctx.globalCompositeOperation s.annotations }
      ctx := c₁ } hok
  obtain ⟨c₃, -, h₃⟩ := redraw_eq t (hlog ▸ hok)
  refine ⟨_, _, _, h₁, h₂, ?_, h₃, ?_, hw, hh⟩
  · simp [hk₁.1]
  · simp [hg, htg, hlog]

/-- Witness of C14: `oneStroke`, and the same log on a blank canvas with other
selections. -/
theorem redraw_idempotent_witness :
    logOk oneStroke.annotations = true ∧
      oneStrokeBlank.annotations = oneStroke.annotations ∧
      oneStrokeBlank.canvas.raster ≠ oneStroke.canvas.raster ∧
      ∃ r r' rt, redraw oneStroke = some r ∧ redraw r = some r' ∧ r'.canvas = r.canvas ∧
        redraw oneStrokeBlank = some rt ∧ rt.canvas.raster = r.canvas.raster ∧
        rt.canvas.width = r.canvas.width ∧ rt.canvas.height = r.canvas.height :=
  ⟨by decide, by decide, by decide,
    redraw_idempotent oneStroke oneStrokeBlank (by decide) (by decide) (by decide)
      (by decide) (by decide) (by decide)⟩

/-- C15. With the engine active, a shape tool selected, a log whose annotations
all have a point and a context composing with source-over, a press at `p0`
followed by moves ending at `q` runs without fault, and the surface then holds
the replay of the committed log followed by exactly one painting call: the
shape from `p0` to `q` in the current colour and size.  No call from an earlier
position of the gesture is left. -/
theorem shape_preview (s : AnnotationTools) (down : PointerEvt × DOMRect)
    (moves : List (PointerEvt × DOMRect)) (q : PointerEvt × DOMRect)
    (ha : s.isActive = true)
    (hs : s.currentTool = Tool.arrow ∨ s.currentTool = Tool.rectangle ∨
      s.currentTool = Tool.circle)
    (hok : logOk s.annotations = true)
    (hg : s.ctx.globalCompositeOperation = CompositeOp.sourceOver) :
    ∃ s' r op,
      run s (Op.pointerdown down.1 down.2 ::
        (moves ++ [q]).map fun m => Op.pointermove m.1 m.2) = some s' ∧
      redraw s = some r ∧
      s'.canvas.raster = r.canvas.raster ++ [op] ∧
      r.canvas.raster = replay CompositeOp.sourceOver s.annotations ∧
      shapeOps
        { strokeStyle := s.currentColor, lineWidth := s.brushSize, lineCap := LineCap.round,
          lineJoin := LineJoin.round, globalAlpha := 10,
          globalCompositeOperation := CompositeOp.sourceOver }
        s.currentTool (localPoint down.1 down.2).x (localPoint down.1 down.2).y
        (localPoint q.1 q.2).x (localPoint q.1 q.2).y = [op] := by
  have hs' : isShape s.currentTool = true := by
    rcases hs with h | h | h <;> simp [h, isShape]
  obtain ⟨raster, c, lx, ly, hc, h₁⟩ := run_press_moves s down moves ha (fun _ => hok)
  obtain ⟨c₂, -, h₂⟩ := draw_eq
    { s with
      canvas := { s.canvas with raster := raster }
      ctx := c
      isDrawing := true
      lastX := lx
      lastY := ly
      startX := down.1.clientX - down.2.left
      startY := down.1.clientY - down.2.top
      currentAnnotation := some
        { tool := s.currentTool, color := s.currentColor, size := s.brushSize,
          points := localPoint down.1 down.2 :: moves.map fun m => localPoint m.1 m.2,
          endX := none, endY := none } }
    q.1 q.2 _ rfl ha rfl (fun _ => hok)
  obtain ⟨c₃, -, h₃⟩ := redraw_eq s hok
  have hone : ∃ op, shapeOps
      { strokeStyle := s.currentColor, lineWidth := s.brushSize, lineCap := LineCap.round,
        lineJoin := LineJoin.round, globalAlpha := 10,
        globalCompositeOperation := CompositeOp.sourceOver }
      s.currentTool (localPoint down.1 down.2).x (localPoint down.1 down.2).y
      (localPoint q.1 q.2).x (localPoint q.1 q.2).y = [op] := by
    rcases hs with h | h | h <;> simp [h, shapeOps]
  obtain ⟨op, hop⟩ := hone
  have hrun : run s (Op.pointerdown down.1 down.2 ::
      (moves ++ [q]).map fun m => Op.pointermove m.1 m.2) = _ :=
    (by
      rw [List.map_append, ← List.cons_append, run_append, h₁, Option.some_bind,
        List.map_singleton, run_cons, step, h₂, Option.some_bind, run_nil])
  refine ⟨_, _, op, hrun, h₃, ?_, ?_, hop⟩
  · rw [← hop]
    rcases hs with h | h | h <;>
      simp [drawRaster, isShape, h, drawPaint, hc hg, hg, localPoint]
  · simp [hg]

/-- Witness of C15: a rectangle pressed at (20,20) on `oneStroke` and moved
through (50,40) to (80,60). -/
theorem shape_preview_witness :
    ∃ s' r op,
      run { oneStroke with currentTool := Tool.rectangle }
        (Op.pointerdown (ptr 20 20) container ::
          ([(ptr 50 40, container)] ++ [(ptr 80 60, container)]).map
            fun m => Op.pointermove m.1 m.2) = some s' ∧
      redraw { oneStroke with currentTool := Tool.rectangle } = some r ∧
      s'.canvas.raster = r.canvas.raster ++ [op] ∧
      r.canvas.raster = replay CompositeOp.sourceOver oneStroke.annotations ∧
      [DrawOp.strokeRect
        { strokeStyle := 0xff0000, lineWidth := 4, lineCap := LineCap.round,
          lineJoin := LineJoin.round, globalAlpha := 10,
          globalCompositeOperation := CompositeOp.sourceOver }
        20 20 60 40] = [op] :=
  shape_preview { oneStroke with currentTool := Tool.rectangle } (ptr 20 20, container)
    [(ptr 50 40, container)] (ptr 80 60, container) (by decide) (by decide) (by decide)
    (by decide)

/-- C16. For every origin `(x1, y1)` and terminal `(x2, y2)`, the live preview
(`drawShape`) and the replay (`drawShapeFromAnnotation`) of a circle stroke one
and the same ellipse.  Its arguments, kept doubled, are centre `(x1 + x2,
y1 + y2)` and radii `|x2 - x1|` and `|y2 - y1|`, that is centre `((x1 + x2) / 2,
(y1 + y2) / 2)` and radii `|x2 - x1| / 2` and `|y2 - y1| / 2`; centre minus and
plus radius are `min` and `max` of the two coordinates on each axis, and the
radii are equal exactly when `|x2 - x1| = |y2 - y1|`. -/
theorem circle_is_ellipse_in_box (s : AnnotationTools) (a : Annotation) (x1 y1 x2 y2 : Int)
    (hs : s.currentTool = Tool.circle) (ha : a.tool = Tool.circle) :
    ∃ (cx2 cy2 rx2 ry2 : Int) (p q : Paint),
      (drawShape s x1 y1 x2 y2).canvas.raster
        = s.canvas.raster ++ [DrawOp.stroke p [PathCmd.ellipse2 cx2 cy2 rx2 ry2]] ∧
      ( drawShapeFromAnnotation s a x1 y1 (some x2) (some y2)).canvas.raster
        = s.canvas.raster ++ [DrawOp.stroke q [PathCmd.ellipse2 cx2 cy2 rx2 ry2]] ∧
      cx2 = x1 + x2 ∧ cy2 = y1 + y2 ∧ rx2 = |x2 - x1| ∧ ry2 = |y2 - y1| ∧
      cx2 - rx2 = 2 * min x1 x2 ∧ cx2 + rx2 = 2 * max x1 x2 ∧
      cy2 - ry2 = 2 * min y1 y2 ∧ cy2 + ry2 = 2 * max y1 y2 ∧
      (rx2 = ry2 ↔ |x2 - x1| = |y2 - y1|) := by
  obtain ⟨hx₁, hx₂, hx₃, hx₄⟩ := ellipse_args x1 x2
  obtain ⟨hy₁, hy₂, hy₃, hy₄⟩ := ellipse_args y1 y2
  refine ⟨x1 + x2, y1 + y2, |x2 - x1|, |y2 - y1|,
    { s.ctx.paint with
      strokeStyle := s.currentColor, lineWidth := s.brushSize, globalAlpha := 10 },
    { s.ctx.paint with strokeStyle := a.color, lineWidth := a.size },
    ?_, ?_, rfl, rfl, rfl, rfl, hx₃, hx₄, hy₃, hy₄, Iff.rfl⟩
  · simp [drawShape, hs, stroke, ellipse2, beginPath, Ctx.paint, hx₂, hy₂]
    exact ⟨hx₂ ▸ hx₁, hy₂ ▸ hy₁⟩
  · simp [ drawShapeFromAnnotation, ha, stroke, ellipse2, beginPath, Ctx.paint, hx₂, hy₂]
    exact ⟨hx₂ ▸ hx₁, hy₂ ▸ hy₁⟩

/-- Witness of C16: a circle dragged from (80,60) back to (20,20). -/
theorem circle_is_ellipse_in_box_witness :
    circleReady.currentTool = Tool.circle ∧ circleBack.tool = Tool.circle ∧
      ∃ (cx2 cy2 rx2 ry2 : Int) (p q : Paint),
        (drawShape circleReady 80 60 20 20).canvas.raster
          = circleReady.canvas.raster ++ [DrawOp.stroke p [PathCmd.ellipse2 cx2 cy2 rx2 ry2]] ∧
        ( drawShapeFromAnnotation circleReady circleBack 80 60 (some 20) (some 20)).canvas.raster
          = circleReady.canvas.raster ++ [DrawOp.stroke q [PathCmd.ellipse2 cx2 cy2 rx2 ry2]] ∧
        cx2 = 80 + 20 ∧ cy2 = 60 + 20 ∧ rx2 = |20 - 80| ∧ ry2 = |20 - 60| ∧
        cx2 - rx2 = 2 * min 80 20 ∧ cx2 + rx2 = 2 * max 80 20 ∧
        cy2 - ry2 = 2 * min 60 20 ∧ cy2 + ry2 = 2 * max 60 20 ∧
        (rx2 = ry2 ↔ |(20 : Int) - 80| = |(20 : Int) - 60|) :=
  ⟨by decide, by decide,
    circle_is_ellipse_in_box circleReady circleBack 80 60 20 20 (by decide) (by decide)⟩

/-- C17. For an origin `(x1, y1)` and a terminal `(x2, y2)` that differ, the live
preview (`drawShape`) and the replay (`drawShapeFromAnnotation`) of an arrow
stroke one and the same path: the shaft from the origin to the terminal, a head
segment from the terminal, a move back to the terminal, and a second head
segment from the terminal.  In exact real arithmetic the end `p` of the head
segment with `k = -1` or `k = 1` is at distance 15 from the terminal, and the
vector from the terminal to `p` is the unit vector from the terminal towards
the origin, scaled by 15 and turned by `k * π/6`, that is by -30 or +30
degrees. -/
theorem arrow_head_geometry (s : AnnotationTools) (a : Annotation) (x1 y1 x2 y2 k : Int)
    (p : ℝ × ℝ) (hs : s.currentTool = Tool.arrow) (ha : a.tool = Tool.arrow)
    (hne : x1 ≠ x2 ∨ y1 ≠ y2)
    (hp : HeadPoint x2 y2 15 (y2 - y1) (x2 - x1) k p) :
    (∃ q r : Paint,
      (drawShape s x1 y1 x2 y2).canvas.raster = s.canvas.raster ++
        [DrawOp.stroke q
          [PathCmd.moveTo x1 y1, PathCmd.lineTo x2 y2,
           PathCmd.lineToHead x2 y2 15 (y2 - y1) (x2 - x1) (-1),
           PathCmd.moveTo x2 y2,
           PathCmd.lineToHead x2 y2 15 (y2 - y1) (x2 - x1) 1]] ∧
      ( drawShapeFromAnnotation s a x1 y1 (some x2) (some y2)).canvas.raster
        = s.canvas.raster ++
        [DrawOp.stroke r
          [PathCmd.moveTo x1 y1, PathCmd.lineTo x2 y2,
           PathCmd.lineToHead x2 y2 15 (y2 - y1) (x2 - x1) (-1),
           PathCmd.moveTo x2 y2,
           PathCmd.lineToHead x2 y2 15 (y2 - y1) (x2 - x1) 1]]) ∧
      (p.1 - x2) ^ 2 + (p.2 - y2) ^ 2 = 15 ^ 2 ∧
      Real.sqrt (((x1 : ℝ) - x2) ^ 2 + ((y1 : ℝ) - y2) ^ 2) * (p.1 - x2)
        = 15 * (Real.cos (k * (Real.pi / 6)) * ((x1 : ℝ) - x2)
            - Real.sin (k * (Real.pi / 6)) * ((y1 : ℝ) - y2)) ∧
      Real.sqrt (((x1 : ℝ) - x2) ^ 2 + ((y1 : ℝ) - y2) ^ 2) * (p.2 - y2)
        = 15 * (Real.sin (k * (Real.pi / 6)) * ((x1 : ℝ) - x2)
            + Real.cos (k * (Real.pi / 6)) * ((y1 : ℝ) - y2)) := by
  refine ⟨⟨{ s.ctx.paint with
      strokeStyle := s.currentColor, lineWidth := s.brushSize, globalAlpha := 10 },
    { s.ctx.paint with strokeStyle := a.color, lineWidth := a.size }, ?_, ?_⟩, ?_⟩
  · simp [drawShape, hs, stroke, moveTo, lineTo, lineToHead, beginPath, Ctx.paint]
  · simp [ drawShapeFromAnnotation, ha, stroke, moveTo, lineTo, lineToHead, beginPath,
      Ctx.paint]
  · have hne' : ((x2 : ℝ) - x1) ≠ 0 ∨ ((y2 : ℝ) - y1) ≠ 0 := by
      rcases hne with h | h
      · left
        intro h0
        exact h (by exact_mod_cast (sub_eq_zero.mp h0).symm)
      · right
        intro h0
        exact h (by exact_mod_cast (sub_eq_zero.mp h0).symm)
    obtain ⟨hcos, hsin⟩ := arg_polar ((x2 : ℝ) - x1) ((y2 : ℝ) - y1) hne'
    have hr : Real.sqrt (((x1 : ℝ) - x2) ^ 2 + ((y1 : ℝ) - y2) ^ 2)
        = Real.sqrt (((x2 : ℝ) - x1) ^ 2 + ((y2 : ℝ) - y1) ^ 2) := by
      congr 1
      ring
    obtain ⟨hp₁, hp₂⟩ := hp
    simp only [Int.cast_sub, Nat.cast_ofNat] at hp₁ hp₂
    rw [hr, hp₁, hp₂, Real.cos_add, Real.sin_add]
    refine ⟨?_, ?_, ?_⟩
    · have h1 := Real.sin_sq_add_cos_sq (Complex.arg ⟨(x2 : ℝ) - x1, (y2 : ℝ) - y1⟩)
      have h2 := Real.sin_sq_add_cos_sq ((k : ℝ) * (Real.pi / 6))
      linear_combination (225 * (Real.sin ((k : ℝ) * (Real.pi / 6)) ^ 2
        + Real.cos ((k : ℝ) * (Real.pi / 6)) ^ 2)) * h1 + 225 * h2
    · linear_combination (-15 * Real.cos ((k : ℝ) * (Real.pi / 6))) * hcos
        + (15 * Real.sin ((k : ℝ) * (Real.pi / 6))) * hsin
    · linear_combination (-15 * Real.cos ((k : ℝ) * (Real.pi / 6))) * hsin
        - (15 * Real.sin ((k : ℝ) * (Real.pi / 6))) * hcos

/-- Witness of C17: the arrow from (20,20) to (80,20) and its head segment with
`k = 1`. -/
theorem arrow_head_geometry_witness :
    arrowReady.currentTool = Tool.arrow ∧ arrowAcross.tool = Tool.arrow ∧
      ((20 : Int) ≠ 80 ∨ (20 : Int) ≠ 20) ∧
      HeadPoint 80 20 15 (20 - 20) (80 - 20) 1
        (80 - 15 * Real.cos (Complex.arg ⟨60, 0⟩ + Real.pi / 6),
         20 - 15 * Real.sin (Complex.arg ⟨60, 0⟩ + Real.pi / 6)) ∧
      (80 - 15 * Real.cos (Complex.arg ⟨60, 0⟩ + Real.pi / 6) - 80) ^ 2
        + (20 - 15 * Real.sin (Complex.arg ⟨60, 0⟩ + Real.pi / 6) - 20) ^ 2 = 15 ^ 2 := by
  have hp : HeadPoint 80 20 15 (20 - 20) (80 - 20) 1
      (80 - 15 * Real.cos (Complex.arg ⟨60, 0⟩ + Real.pi / 6),
       20 - 15 * Real.sin (Complex.arg ⟨60, 0⟩ + Real.pi / 6)) := by
    constructor <;> norm_num
  have h := (arrow_head_geometry arrowReady arrowAcross 20 20 80 20 1 _ (by decide)
    (by decide) (by decide) hp).2.1
  exact ⟨by decide, by decide, by decide, hp, by simpa using h⟩

/-- C18 fails for the eraser: an eraser stroke through three points is painted
as two segments, and the replay of the log that holds it paints nothing. -/
theorem eraser_polyline_not_replayed :
    (run (init container) eraserStrokeOps).map
        (fun s => (s.annotations.map fun a => (a.tool, a.points),
          s.canvas.raster.map strokeSegments))
      = some ([(Tool.eraser, [{ x := 30, y := 0 }, { x := 30, y := 10 }, { x := 30, y := 20 }])],
          [[({ x := 30, y := 0 }, { x := 30, y := 10 })],
           [({ x := 30, y := 10 }, { x := 30, y := 20 })]])
    ∧ ((run (init container) eraserStrokeOps).bind redraw).map (fun s => s.canvas.raster)
      = some [] := by
  decide

/-- C18 as amended.  With the engine active and a freehand tool selected, a
gesture pressed at `p0` and moved through `p1 .. pk` runs without fault; it
paints `k` calls after what the surface held, the i-th stroking the one segment
`(p(i-1), pi)`, and commits an annotation whose points are `[p0, .., pk]`.  From
any state, the replay of that annotation paints one call whose path runs
through the same segments in the same order when the tool is the pen or the
highlighter, and paints nothing when the tool is the eraser. -/
theorem freehand_segments (s t : AnnotationTools) (down : PointerEvt × DOMRect)
    (moves : List (PointerEvt × DOMRect)) (ha : s.isActive = true)
    (hf : s.currentTool = Tool.pen ∨ s.currentTool = Tool.highlighter ∨
      s.currentTool = Tool.eraser) :
    ∃ (s' : AnnotationTools) (ops : List DrawOp) (a : Annotation),
      run s (gesture down moves) = some s' ∧
      s'.canvas.raster = s.canvas.raster ++ ops ∧
      ops.map strokeSegments =
        (consecutive (localPoint down.1 down.2 ::
          moves.map fun m => localPoint m.1 m.2)).map (fun seg => [seg]) ∧
      s'.annotations = s.annotations ++ [a] ∧
      a.points = localPoint down.1 down.2 :: moves.map (fun m => localPoint m.1 m.2) ∧
      ∃ (t' : AnnotationTools) (painted : List DrawOp),
        redrawAnnotation t a = some t' ∧
        t'.canvas.raster = t.canvas.raster ++ painted ∧
        (s.currentTool = Tool.eraser → painted = []) ∧
        (s.currentTool ≠ Tool.eraser →
          painted.map strokeSegments =
            [consecutive (localPoint down.1 down.2 ::
              moves.map fun m => localPoint m.1 m.2)]) := by
  have hs : ¬ isShape s.currentTool = true := by
    rcases hf with h | h | h <;> simp [h, isShape]
  obtain ⟨ops, c, lx, ly, hseg, h⟩ := run_moves_freehand moves
    (startDrawing s down.1 down.2)
    { tool := s.currentTool, color := s.currentColor, size := s.brushSize,
      points := [localPoint down.1 down.2], endX := none, endY := none }
    (by simp [startDrawing_eq, ha]) (by simp [startDrawing_eq, ha])
    (by simp [startDrawing_eq, ha]) (by simpa [startDrawing_eq, ha] using hs)
  have hrun : run s (gesture down moves) = _ :=
    (by
      rw [gesture, run_cons, step, Option.some_bind, run_append, h, Option.some_bind,
        run_cons, step, stopDrawing_eq _ _ (by simp [startDrawing_eq, ha]) rfl (by simp),
        Option.some_bind, run_nil])
  obtain ⟨c₂, -, h₂⟩ := redrawAnnotation_eq t
    { tool := s.currentTool, color := s.currentColor, size := s.brushSize,
      points := localPoint down.1 down.2 :: moves.map (fun m => localPoint m.1 m.2),
      endX := none, endY := none } (by simp)
  refine ⟨_, ops,
    { tool := s.currentTool, color := s.currentColor, size := s.brushSize,
      points := localPoint down.1 down.2 :: moves.map (fun m => localPoint m.1 m.2),
      endX := none, endY := none },
    hrun, ?_, ?_, ?_, rfl, _, _, h₂, rfl, ?_, ?_⟩
  · simp [startDrawing_eq, ha]
  · simpa [startDrawing_eq, ha, localPoint] using hseg
  · simp [startDrawing_eq, ha, hs]
  · intro he
    simp [replayOps, he, isShape]
  · intro he
    rcases hf with h | h | h
    · simp [replayOps, h, isShape, strokeSegments, pathSegments_polyline]
    · simp [replayOps, h, isShape, strokeSegments, pathSegments_polyline]
    · exact absurd h he

/-- Witness of C18 as amended: a highlighter stroke through (10,10), (30,10)
and (50,10). -/
theorem freehand_segments_witness :
    ∃ (s' : AnnotationTools) (ops : List DrawOp) (a : Annotation),
      run { ready with currentTool := Tool.highlighter }
        (gesture (ptr 10 10, container) [(ptr 30 10, container), (ptr 50 10, container)])
        = some s' ∧
      s'.canvas.raster = [] ++ ops ∧
      ops.map strokeSegments =
        [[({ x := 10, y := 10 }, { x := 30, y := 10 })],
         [({ x := 30, y := 10 }, { x := 50, y := 10 })]] ∧
      s'.annotations = [] ++ [a] ∧
      a.points = [{ x := 10, y := 10 }, { x := 30, y := 10 }, { x := 50, y := 10 }] ∧
      ∃ (t' : AnnotationTools) (painted : List DrawOp),
        redrawAnnotation ready a = some t' ∧
        t'.canvas.raster = [] ++ painted ∧
        (Tool.highlighter = Tool.eraser → painted = []) ∧
        (Tool.highlighter ≠ Tool.eraser →
          painted.map strokeSegments =
            [[({ x := 10, y := 10 }, { x := 30, y := 10 }),
              ({ x := 30, y := 10 }, { x := 50, y := 10 })]]) :=
  freehand_segments { ready with currentTool := Tool.highlighter } ready (ptr 10 10, container)
    [(ptr 30 10, container), (ptr 50 10, container)] (by decide) (by decide)

/-- C19 fails: with a pen gesture open through (10,10) and (30,10), a press at
(100,100) replaces the uncommitted annotation and its origin by a fresh one at
(100,100), and the release after a move to (120,100) commits the fresh
annotation; the points (10,10) and (30,10) are in no annotation. -/
theorem press_while_drawing :
    (run (init container)
        [Op.showTools container, Op.pointerdown (ptr 10 10) container,
         Op.pointermove (ptr 30 10) container]).map
        (fun s => (s.isDrawing, ({ x := s.startX, y := s.startY } : Point),
          s.currentAnnotation))
      = some (true, { x := 10, y := 10 },
          some (penStroke [{ x := 10, y := 10 }, { x := 30, y := 10 }]))
    ∧ (run (init container)
        [Op.showTools container, Op.pointerdown (ptr 10 10) container,
         Op.pointermove (ptr 30 10) container, Op.pointerdown (ptr 100 100) container]).map
        (fun s => (s.isDrawing, ({ x := s.startX, y := s.startY } : Point),
          s.currentAnnotation))
      = some (true, { x := 100, y := 100 }, some (penStroke [{ x := 100, y := 100 }]))
    ∧ (run (init container)
        [Op.showTools container, Op.pointerdown (ptr 10 10) container,
         Op.pointermove (ptr 30 10) container, Op.pointerdown (ptr 100 100) container,
         Op.pointermove (ptr 120 100) container, Op.pointerup]).map
        (fun s => s.annotations)
      = some [penStroke [{ x := 100, y := 100 }, { x := 120, y := 100 }]] := by
  decide

/-- C19 as amended.  With the engine active, a press does the same whether or
not a gesture is open, so a press received while a gesture is open does not
open a second gesture beside it: it restarts the one gesture.  The uncommitted
annotation becomes a fresh one with the current tool, colour and size whose
only point is the new coordinate, the origin becomes the new coordinate, and
the log is untouched; the moves and the release that follow commit exactly one
annotation, the fresh one, and the points gathered before the press are
dropped. -/
theorem press_restarts_gesture (s : AnnotationTools)
    (down : PointerEvt × DOMRect) (moves : List (PointerEvt × DOMRect))
    (ha : s.isActive = true)
    (hok : isShape s.currentTool = true → logOk s.annotations = true) :
    startDrawing s down.1 down.2 = { s with
        isDrawing := true
        lastX := (localPoint down.1 down.2).x
        lastY := (localPoint down.1 down.2).y
        startX := (localPoint down.1 down.2).x
        startY := (localPoint down.1 down.2).y
        currentAnnotation := some
          { tool := s.currentTool, color := s.currentColor, size := s.brushSize,
            points := [localPoint down.1 down.2], endX := none, endY := none } } ∧
      ∃ s', run s (gesture down moves) = some s' ∧
        s'.annotations = s.annotations ++
          [committed s (localPoint down.1 down.2 :: moves.map fun m => localPoint m.1 m.2)] ∧
        s'.isDrawing = false ∧ s'.currentAnnotation = none := by
  obtain ⟨raster, c, lx, ly, -, h⟩ := run_gesture s down moves ha hok
  exact ⟨startDrawing_eq s down.1 down.2 ha, _, h, rfl, rfl, rfl⟩

/-- Witness of C19 as amended: a press at (100,100) while the eraser gesture of
`midErase` is open, a move to (120,100) and a release. -/
theorem press_restarts_gesture_witness :
    midErase.isActive = true ∧ midErase.isDrawing = true ∧
      midErase.currentAnnotation = some eraserPath ∧
      ∃ s', run midErase (gesture (ptr 100 100, container) [(ptr 120 100, container)])
          = some s' ∧
        s'.annotations = midErase.annotations ++
          [{ tool := Tool.eraser, color := 0xff0000, size := 4,
             points := [{ x := 100, y := 100 }, { x := 120, y := 100 }],
             endX := none, endY := none }] ∧
        s'.isDrawing = false ∧ s'.currentAnnotation = none :=
  ⟨by decide, by decide, by decide,
    (press_restarts_gesture midErase (ptr 100 100, container)
      [(ptr 120 100, container)] (by decide) (by decide)).2⟩

/-- C20. Every sequence of events (press, move, release, tool, colour and size
selection, undo, clear, show, hide, toggle, resize, in any order) runs from a
fresh instance without fault, and in the state it reaches an open gesture has
an uncommitted annotation with at least one point; from that state `draw` and
`stopDrawing` return a state, that is, neither reads a property of a missing
annotation or of a missing last point. -/
theorem open_gesture_has_point (rect : DOMRect) (ops : List Op) :
    ∃ s, run (init rect) ops = some s ∧
      (s.isDrawing = true → ∃ a, s.currentAnnotation = some a ∧ a.points ≠ []) ∧
      (∀ (e : PointerEvt) (r : DOMRect), ∃ s', draw s e r = some s') ∧
      ∃ s', stopDrawing s = some s' := by
  obtain ⟨s, hrun⟩ := run_some ops (init rect) (wellFormed_init rect)
  have hwf : wellFormed s = true := wellFormed_run ops _ s (wellFormed_init rect) hrun
  exact ⟨s, hrun, ((wellFormed_iff s).mp hwf).2.1,
    fun e r => step_some s (Op.pointermove e r) hwf, step_some s Op.pointerup hwf⟩

end Annotate

namespace Recorder

/-! ## Lemmas on decimal numerals and padding -/

theorem digitChar_isDigit (m : Nat) (h : m < 10) :
    (Nat.digitChar m).isDigit = true ∧ (Nat.digitChar m).toNat - '0'.toNat = m := by
  interval_cases m <;> decide

theorem toDigitsCore_value (fuel n : Nat) (acc : List Char) (h : n < fuel) :
    List.foldl (fun k c => k * 10 + (c.toNat - '0'.toNat)) 0 (Nat.toDigitsCore 10 fuel n acc) =
        List.foldl (fun k c => k * 10 + (c.toNat - '0'.toNat)) n acc ∧
      (Nat.toDigitsCore 10 fuel n acc).all Char.isDigit = acc.all Char.isDigit := by
  induction fuel generalizing n acc with
  | zero => omega
  | succ fuel ih =>
    have hd := digitChar_isDigit (n % 10) (Nat.mod_lt _ (by decide))
    simp only [Nat.toDigitsCore]
    split
    · rename_i h0
      have hn : n % 10 = n := Nat.mod_eq_of_lt (by omega)
      rw [hn] at hd ⊢
      simp only [List.foldl_cons, List.all_cons, Nat.zero_mul, Nat.zero_add]
      rw [hd.1, hd.2, Bool.true_and]
      exact ⟨rfl, rfl⟩
    · have := ih (n / 10) (Nat.digitChar (n % 10) :: acc) (by omega)
      rw [this.1, this.2]
      simp only [List.foldl_cons, List.all_cons, hd.1, hd.2, Bool.true_and, Nat.div_add_mod']
      exact ⟨trivial, trivial⟩

theorem repr_value (n : Nat) :
    List.foldl (fun k c => k * 10 + (c.toNat - '0'.toNat)) 0 (Nat.repr n).data = n ∧
      (Nat.repr n).data.all Char.isDigit = true := by
  have := toDigitsCore_value (n + 1) n [] (Nat.lt_succ_self n)
  simpa [Nat.repr, Nat.toDigits, List.asString] using this

theorem padStart_zero (s : String) :
    padStart s 2 "0" = String.mk (List.replicate (2 - s.length) '0') ++ s := by
  unfold padStart
  split
  · rename_i h
    rcases h with h | h
    · rw [Nat.sub_eq_zero_of_le h]; rfl
    · exact absurd h (by decide)
  · rename_i h
    have hlen : s.length = 0 ∨ s.length = 1 := by
      have : ¬ 2 ≤ s.length := fun h2 => h (Or.inl h2)
      omega
    rcases hlen with h0 | h1
    · rw [h0]; rfl
    · rw [h1]; rfl

theorem padStart_toString (n : Nat) : padStart (toString n) 2 "0" = twoDigits n :=
  padStart_zero _

theorem twoDigits_length (n : Nat) :
    (twoDigits n).length = max 2 (Nat.repr n).length := by
  rw [twoDigits, String.length_append]
  simp only [String.length, List.length_replicate]
  omega

theorem twoDigits_length_of_lt (n : Nat) (h : n < 100) : (twoDigits n).length = 2 := by
  have := Nat.repr_length n 2 (by decide) (by omega)
  rw [twoDigits_length]; omega

theorem foldl_zeros (k : Nat) :
    List.foldl (fun m c => m * 10 + (c.toNat - '0'.toNat)) 0 (List.replicate k '0') = 0 := by
  induction k with
  | zero => rfl
  | succ k ih => rw [List.replicate_succ, List.foldl_cons]; exact ih

theorem twoDigits_toNat (n : Nat) : (twoDigits n).toNat? = some n := by
  have hv := repr_value n
  have hl : 2 ≤ (twoDigits n).length := by rw [twoDigits_length]; omega
  have hne : (twoDigits n).isEmpty = false := by
    rw [Bool.eq_false_iff, Ne, String.isEmpty_iff]
    intro h
    rw [h] at hl
    exact absurd hl (by decide)
  have hall : (twoDigits n).data.all Char.isDigit = true := by
    rw [twoDigits, String.data_append, List.all_append, hv.2, Bool.and_true]
    simp
  simp only [String.toNat?, String.isNat, hne, String.all_eq, String.foldl_eq, hall,
    Bool.not_false, Bool.and_self, if_true]
  rw [twoDigits, String.data_append, List.foldl_append, foldl_zeros, hv.1]

theorem formatTime_natCast (ms : Nat) :
    formatTime ms = twoDigits (ms / 1000 / 3600) ++ ":" ++ twoDigits (ms / 1000 % 3600 / 60) ++
      ":" ++ twoDigits (ms / 1000 % 60) := by
  have h1 : Int.fdiv (ms : Int) 1000 = ((ms / 1000 : Nat) : Int) := by
    rw [Int.fdiv_eq_ediv _ (by decide)]; norm_cast
  have h2 : Int.fdiv ((ms / 1000 : Nat) : Int) 3600 = ((ms / 1000 / 3600 : Nat) : Int) := by
    rw [Int.fdiv_eq_ediv _ (by decide)]; norm_cast
  have h3 : Int.tmod ((ms / 1000 : Nat) : Int) 3600 = ((ms / 1000 % 3600 : Nat) : Int) := by
    rw [Int.tmod_eq_emod (Int.ofNat_nonneg _) (by decide)]; norm_cast
  have h4 : Int.fdiv ((ms / 1000 % 3600 : Nat) : Int) 60 = ((ms / 1000 % 3600 / 60 : Nat) : Int) := by
    rw [Int.fdiv_eq_ediv _ (by decide)]; norm_cast
  have h5 : Int.tmod ((ms / 1000 : Nat) : Int) 60 = ((ms / 1000 % 60 : Nat) : Int) := by
    rw [Int.tmod_eq_emod (Int.ofNat_nonneg _) (by decide)]; norm_cast
  have hs : ∀ k : Nat, toString (k : Int) = toString k := fun _ => rfl
  simp only [formatTime, h1, h2, h3, h4, h5, hs, padStart_toString]

theorem isDigit_value (c : Char) (h : c.isDigit = true) : c.toNat - '0'.toNat ≤ 9 := by
  simp only [Char.isDigit, Bool.and_eq_true, decide_eq_true_eq] at h
  have h2 : c.val.toNat ≤ 57 := h.2
  show c.val.toNat - 48 ≤ 9
  omega

theorem decimal_lt (l : List Char) : l.all Char.isDigit = true → ∀ a : Nat,
    List.foldl (fun m c => m * 10 + (c.toNat - '0'.toNat)) a l < (a + 1) * 10 ^ l.length := by
  induction l with
  | nil => intro _ a; simp
  | cons c l ih =>
    intro h a
    rw [List.all_cons, Bool.and_eq_true] at h
    have hc := isDigit_value c h.1
    have := ih h.2 (a * 10 + (c.toNat - '0'.toNat))
    rw [List.foldl_cons, List.length_cons, pow_succ]
    calc _ < (a * 10 + (c.toNat - '0'.toNat) + 1) * 10 ^ l.length := this
      _ ≤ ((a + 1) * 10) * 10 ^ l.length := Nat.mul_le_mul_right _ (by omega)
      _ = (a + 1) * (10 ^ l.length * 10) := by ring

theorem lt_of_repr_length (n : Nat) : n < 10 ^ (Nat.repr n).length := by
  have hv := repr_value n
  have := decimal_lt (Nat.repr n).data hv.2 0
  rw [hv.1, Nat.zero_add, Nat.one_mul] at this
  exact this

theorem twoDigits_length_eq_two (n : Nat) : (twoDigits n).length = 2 ↔ n < 100 := by
  refine ⟨fun h => ?_, twoDigits_length_of_lt n⟩
  rw [twoDigits_length] at h
  have hl : (Nat.repr n).length ≤ 2 := by omega
  calc n < 10 ^ (Nat.repr n).length := lt_of_repr_length n
    _ ≤ 10 ^ 2 := Nat.pow_le_pow_right (by decide) hl

/-! ## The claims on the timer -/

/-- C21 (defect in the code). A recording is started at `t0` on a recorder whose
start time and paused time are reset, paused at `t1` and resumed at `t2`, with
`t0` not the zero of the clock. The pause stores `t1 - t0` as paused time, but
the resume clears `isPaused` before it calls `startTimer`, whose test
`!this.startTime || this.isPaused` then fails and leaves the start time at
`t0`: at every time `t` the timer computes `t - t0` and shows its format, which
exceeds the `(t1 - t0) + (t - t2)` of the claim by the length `t2 - t1` of the
pause. Called on the paused state itself, `startTimer` moves the start time and
the elapsed time is the one the claim gives. -/
theorem resume_keeps_start_time (r : ScreenRecorder) (t0 t1 t2 t : Int)
    (hs : r.startTime = 0) (hp : r.pausedTime = 0) (h0 : t0 ≠ 0) :
    ∃ p q, run r [(t0, .startRecording), (t1, .togglePause)] = some p ∧
      run r (pausedAndResumed t0 t1 t2) = some q ∧
      p.isPaused = true ∧ p.pausedTime = t1 - t0 ∧
      q.isPaused = false ∧ q.timerInterval = true ∧ q.startTime = t0 ∧
      elapsed t q = t - t0 ∧
      (tick t q).timerText = formatTime (t - t0) ∧
      elapsed t q - ((t1 - t0) + (t - t2)) = t2 - t1 ∧
      elapsed t (startTimer t2 p) = (t1 - t0) + (t - t2) := by
  have hp₁ : run r [(t0, .startRecording), (t1, .togglePause)] = some
      { mediaRecorder := some .paused, isRecording := true, isPaused := true,
        timerInterval := false, startTime := t0, pausedTime := t1 - t0,
        timerText := r.timerText } := by
    simp [run, step, startRecording, togglePause, startTimer, stopTimer,
      RecordingState.pause, hs, hp]
  have hq : run r (pausedAndResumed t0 t1 t2) = some
      { mediaRecorder := some .recording, isRecording := true, isPaused := false,
        timerInterval := true, startTime := t0, pausedTime := t1 - t0,
        timerText := r.timerText } := by
    simp [pausedAndResumed, run, step, startRecording, togglePause, startTimer, stopTimer,
      RecordingState.pause, RecordingState.resume, hs, hp, h0]
  refine ⟨_, _, hp₁, hq, rfl, rfl, rfl, rfl, rfl, rfl, rfl, ?_, ?_⟩
  · simp only [elapsed]; ring
  · simp only [elapsed, startTimer]; simp; ring

/-- The recording of C21 started at second 1, paused at second 2 and resumed at
second 5: one second later the timer computes 5000 ms and shows `00:00:05`,
where the claim gives 2000 ms. -/
theorem resume_keeps_start_time_witness :
    ∃ q, run (ScreenRecorder.new "00:00:00") (pausedAndResumed 1000 2000 5000) = some q ∧
      elapsed 6000 q = 5000 ∧ (tick 6000 q).timerText = "00:00:05" ∧
      ((2000 : Int) - 1000) + (6000 - 5000) = 2000 := by
  obtain ⟨_, q, -, hq, -, -, -, -, -, he, ht, -, -⟩ :=
    resume_keeps_start_time (ScreenRecorder.new "00:00:00") 1000 2000 5000 6000 rfl rfl
      (by decide)
  exact ⟨q, hq, he.trans (by decide), ht.trans (by decide), by decide⟩

/-- C22. For a non-negative integer `ms`, with `T = ms / 1000` rounded down,
`H = T / 3600` rounded down, `M = (T mod 3600) / 60` rounded down and
`S = T mod 60`, `formatTime ms` is `H`, `M` and `S` joined by colons, each as
its decimal numeral left-padded with zeros to at least two digits: such a field
reads back as its number, has two characters or as many as the numeral when
that is more, and has exactly two when the number is below 100. `M` and `S` are
below 60 and `H * 3600 + M * 60 + S = T`. `formatTime 0` is `00:00:00`, the text
`newRecording` puts in the timer, and the result has 8 characters exactly when
`ms < 360000000`. -/
theorem formatTime_fields (ms : Nat) :
    ∃ T H M S : Nat, T = ms / 1000 ∧ H = T / 3600 ∧ M = T % 3600 / 60 ∧ S = T % 60 ∧
      formatTime ms = twoDigits H ++ ":" ++ twoDigits M ++ ":" ++ twoDigits S ∧
      (∀ n : Nat, (twoDigits n).toNat? = some n ∧
        (twoDigits n).length = max 2 (Nat.repr n).length ∧
        ((twoDigits n).length = 2 ↔ n < 100)) ∧
      M < 60 ∧ S < 60 ∧ H * 3600 + M * 60 + S = T ∧
      formatTime 0 = "00:00:00" ∧
      (∀ r : ScreenRecorder, (newRecording r).timerText = formatTime 0) ∧
      ((formatTime ms).length = 8 ↔ ms < 360000000) := by
  have hzero : formatTime 0 = "00:00:00" := by decide
  refine ⟨_, _, _, _, rfl, rfl, rfl, rfl, formatTime_natCast ms,
    fun n => ⟨twoDigits_toNat n, twoDigits_length n, twoDigits_length_eq_two n⟩,
    Nat.div_lt_of_lt_mul (Nat.mod_lt _ (by decide)), Nat.mod_lt _ (by decide), ?_,
    hzero, fun _ => hzero.symm, ?_⟩
  · omega
  · have hm := twoDigits_length_of_lt (ms / 1000 % 3600 / 60)
      (by have := Nat.mod_lt (ms / 1000) (show 0 < 3600 by decide); omega)
    have hs := twoDigits_length_of_lt (ms / 1000 % 60)
      (by have := Nat.mod_lt (ms / 1000) (show 0 < 60 by decide); omega)
    have hh := twoDigits_length_eq_two (ms / 1000 / 3600)
    have hc : (":" : String).length = 1 := rfl
    rw [formatTime_natCast, String.length_append, String.length_append, String.length_append,
      String.length_append, hm, hs, hc]
    constructor
    · intro h
      have := hh.1 (by omega)
      omega
    · intro h
      have := hh.2 (by omega)
      omega

end Recorder
